import Mathlib

/-!
Verification of the simplelink NBP packet-relay core.

Shallow embedding of the Rust sources:
  * `src/src/nbp/crc16.rs`      — CRC-CCITT16 (u16 modelled as Nat mod 2^16)
  * `src/src/spec/routing.rs`   — route algebra over 17-word address vectors
  * `src/src/spec/frame.rs`     — NBP frame serialization and parsing
  * `src/src/kiss.rs`           — KISS HDLC framing (encode, streaming decode)
  * `src/src/spec/prn_id.rs`    — LFSR packet-id generator
  * `src/src/nbp/node/prn_table.rs` — seen-PRN ring
  * `src/src/spec/node/tx_queue.rs` — transmit queue (enqueue / ack / tick)
  * `src/src/spec/node/mod.rs`  — node dispatch of received frames
  * `src/src/nbp/address.rs`    — base-36 callsign codec

Machine integers are Nats with explicit `% 2^w` wherever Rust wrapping can
occur.  Byte streams are `List Nat` of values below 256.  Fallible reads
return `Option`; Rust panics are modelled by a distinguished `none` result
where noted.
-/

set_option maxRecDepth 40000

instance {e a : Type} [DecidableEq e] [DecidableEq a] : DecidableEq (Except e a) := fun x y =>
  match x, y with
  | .error u, .error v =>
      if h : u = v then isTrue (by rw [h]) else isFalse (by intro hc; cases hc; exact h rfl)
  | .ok u, .ok v =>
      if h : u = v then isTrue (by rw [h]) else isFalse (by intro hc; cases hc; exact h rfl)
  | .error _, .ok _ => isFalse (by intro hc; cases hc)
  | .ok _, .error _ => isFalse (by intro hc; cases hc)

namespace SimpleLink

/-! ### CRC-CCITT16, from `src/src/nbp/crc16.rs`.

`CRC` is a u16, modelled as a Nat kept below 2^16 by reducing after the
left shift. -/

def CRC_POLY : Nat := 0x1021

def crc_new : Nat := 0xFFFF

/-- One iteration of `update_u8`'s loop: input bit `0x80 >> i`, MSB first.
The `crc << 1` wraps in u16; `+ 1` cannot overflow because the wrapped
value is even; `^ CRC_POLY` stays below 2^16. -/
def crc_u8_step (byte : Nat) (crc : Nat) (i : Nat) : Nat :=
  let bit := 0x80 >>> i
  let xor_flag := crc &&& 0x8000 = 0x8000
  let crc1 := (crc <<< 1) % 65536
  let crc2 := if byte &&& bit = bit then crc1 + 1 else crc1
  if xor_flag then crc2 ^^^ CRC_POLY else crc2

/-- `update_u8`: 8 iterations over the input bits. -/
def update_u8 (byte : Nat) (crc : Nat) : Nat :=
  (List.range 8).foldl (crc_u8_step byte) crc

/-- Fold `update_u8` over a byte list (the shape of every CRC use site). -/
def crc_bytes (bs : List Nat) (crc : Nat) : Nat :=
  bs.foldl (fun c b => update_u8 b c) crc

/-- Big-endian byte decomposition of a u32, as in `update_u32`'s local
`bytes` array and in `byteorder`'s `write_u32::<BigEndian>`. -/
def u32_be (w : Nat) : List Nat :=
  [(w >>> 24) % 256, (w >>> 16) % 256, (w >>> 8) % 256, w % 256]

/-- `update_u32` processes the four big-endian bytes of the word. -/
def update_u32 (int : Nat) (crc : Nat) : Nat :=
  crc_bytes (u32_be int) crc

/-- One iteration of `finish`'s loop (a zero input bit). -/
def crc_finish_step (crc : Nat) (i : Nat) : Nat :=
  let xor_flag := crc &&& 0x8000 = 0x8000
  let crc1 := (crc <<< 1) % 65536
  if xor_flag then crc1 ^^^ CRC_POLY else crc1

/-- `finish`: append 16 zero bits. -/
def crc_finish (crc : Nat) : Nat :=
  (List.range 16).foldl crc_finish_step crc

/-! ### Byte-stream readers (`byteorder` big-endian reads over a cursor).

A read past the end of the stream is the `UnexpectedEof` IO error, modelled
as `none`. -/

def read_u32 : List Nat → Option (Nat × List Nat)
  | b0 :: b1 :: b2 :: b3 :: rest =>
      some (b0 * 16777216 + b1 * 65536 + b2 * 256 + b3, rest)
  | _ => none

def read_u16 : List Nat → Option (Nat × List Nat)
  | b0 :: b1 :: rest => some (b0 * 256 + b1, rest)
  | _ => none

/-- Big-endian byte decomposition of a u16 (`write_u16::<BigEndian>`). -/
def u16_be (w : Nat) : List Nat := [(w >>> 8) % 256, w % 256]

/-! ### Routing, from `src/src/spec/routing.rs`. -/

def ADDRESS_SEPARATOR : Nat := 0x0

def BROADCAST_ADDRESS : Nat := 0xFFFFFFFF

def MAX_LENGTH : Nat := 17

/-- A `Route` is a `[u32; 17]`, modelled as a list whose length-17 side
condition is carried by hypotheses. -/
abbrev Route := List Nat

inductive ParseError where
  | BadFormat
deriving DecidableEq

def is_destination (route : Route) (this_addr : Nat) : Bool :=
  route.getD 0 0 = this_addr || route.getD 0 0 = BROADCAST_ADDRESS

def is_broadcast (route : Route) : Bool :=
  route.getD 0 0 = BROADCAST_ADDRESS

def final_addr (route : Route) : Bool :=
  route.getD 1 0 = ADDRESS_SEPARATOR

/-- Index of the first separator, as computed by `iter().position(..)`. -/
def sep_index (route : Route) : Option Nat :=
  route.findIdx? (fun addr => addr = ADDRESS_SEPARATOR)

/-- `advance`: shift positions `0..sep_idx` down by one (position `i` takes
the old value of position `i+1`), then write `this_addr` at `sep_idx`.  The
functional rendering below reproduces the in-place loop
`for i in 0..sep_idx { new_route[i] = new_route[i+1] }`. -/
def advance (route : Route) (this_addr : Nat) : Except ParseError Route :=
  match sep_index route with
  | none => .error .BadFormat
  | some sep_idx =>
      if sep_idx = 0 ∨ sep_idx + 1 = route.length then .error .BadFormat
      else
        .ok ((List.range route.length).map (fun i =>
          if i < sep_idx then route.getD (i + 1) 0
          else if i = sep_idx then this_addr
          else route.getD i 0))

/-- `reverse`: reversed route with leading separators dropped, written into
a zeroed 17-slot array. -/
def reverse_route (route : Route) : Route :=
  let reversed := route.reverse.dropWhile (fun addr => addr = ADDRESS_SEPARATOR)
  reversed ++ List.replicate (MAX_LENGTH - reversed.length) 0

/-! ### NBP frame codec, from `src/src/spec/frame.rs`. -/

def MTU : Nat := 1500

def MAX_ACK_SIZE : Nat := 4 + 4 * (MAX_LENGTH + 1) + 2

def MAX_PACKET_SIZE : Nat := MAX_ACK_SIZE + MTU

structure Frame where
  prn : Nat
  address_route : Route
deriving DecidableEq

inductive ReadError where
  | IoError
  | Truncated
  | BadAddress
  | CRCFailure
deriving DecidableEq

def new_ack (prn : Nat) (dest : Route) : Frame :=
  { prn := prn, address_route := dest }

/-- The route words emitted by `to_bytes`' address loop: elements in order,
stopping once two separators have been written. -/
def write_route_words : List Nat → Nat → List Nat
  | [], _ => []
  | addr :: rest, delim_count =>
      let d := if addr = ADDRESS_SEPARATOR then delim_count + 1 else delim_count
      addr :: (if d = 2 then [] else write_route_words rest d)

/-- Full route section of `to_bytes`: if only one delimiter was seen the
trailing separator is appended. -/
def route_words (route : Route) : List Nat :=
  let w := write_route_words route 0
  if w.count ADDRESS_SEPARATOR = 1 then w ++ [ADDRESS_SEPARATOR] else w

/-- `to_bytes`: prn, route section, payload, CRC.  The byte sink is the
returned list (the callers' buffers are large enough that cursor write
errors cannot occur for well-formed frames).  `none` payload is the ack
form. -/
def to_bytes (frame : Frame) (payload : Option (List Nat)) : List Nat :=
  let words := route_words frame.address_route
  let crc1 := update_u32 frame.prn crc_new
  let crc2 := words.foldl (fun c w => update_u32 w c) crc1
  let crc3 := match payload with
    | some data => crc_bytes data crc2
    | none => crc2
  let crc := crc_finish crc3
  u32_be frame.prn ++ words.flatMap u32_be ++
    (match payload with | some data => data | none => []) ++ u16_be crc

/-- The parser's address loop: up to `fuel` words, stopping once the
separator marker reaches 2.  Returns the words read, the final marker and
the rest of the stream; `none` is a propagated read error. -/
def read_route_words : Nat → Nat → List Nat → Option (List Nat × Nat × List Nat)
  | 0, marker, bytes => some ([], marker, bytes)
  | fuel + 1, marker, bytes =>
      match read_u32 bytes with
      | none => none
      | some (value, rest) =>
          let m := if value = ADDRESS_SEPARATOR then marker + 1 else marker
          if m = 2 then some ([value], m, rest)
          else
            match read_route_words fuel m rest with
            | none => none
            | some (ws, m2, rest2) => some (value :: ws, m2, rest2)

/-- `from_bytes` over a byte stream, with `size` the total frame size and
the caller's `out_payload` buffer of length `MTU` taken zero-initialised.
Result `none` models the Rust panic at `out_payload[..payload_size]` when
`payload_size` exceeds the buffer (the preceding `Truncated` assignment is
always shadowed by that panic).  On success returns the frame, the payload
size and the payload buffer. -/
def from_bytes (bytes : List Nat) (size : Nat) :
    Option (Except ReadError (Frame × Nat × List Nat)) :=
  match read_u32 bytes with
  | none => some (.error .IoError)
  | some (prn, r1) =>
  match read_route_words MAX_LENGTH 0 r1 with
  | none => some (.error .IoError)
  | some (ws, marker, r2) =>
  -- if 17 words were seen without two separators, an 18th word must be a
  -- separator; it feeds the CRC but is not stored in the address array
  match (if ws.length = MAX_LENGTH ∧ marker ≠ 2 then
          match read_u32 r2 with
          | none => none
          | some (value, r3) =>
              some (ws ++ [value], ws.length + 1,
                (if value ≠ 0 then some ReadError.BadAddress else none), r3)
        else some (ws, ws.length, none, r2)) with
  | none => some (.error .IoError)
  | some (crc_words, addr_len, err0, r3) =>
  let header_size := 4 + addr_len * 4 + 2
  if size < header_size then some (.error .IoError)
  else
    let payload_size := size - header_size
    let copied := min payload_size (min MTU r3.length)
    let out_payload := r3.take copied ++ List.replicate (MTU - copied) 0
    let r4 := r3.drop copied
    if payload_size > MTU then none   -- panic slicing `out_payload[..payload_size]`
    else
      let crc := crc_finish (crc_bytes (out_payload.take payload_size)
        (crc_words.foldl (fun c w => update_u32 w c) (update_u32 prn crc_new)))
      match read_u16 r4 with
      | none => some (.error .IoError)
      | some (frame_crc, _) =>
          let err := if frame_crc ≠ crc then some ReadError.CRCFailure else err0
          let route := ws ++ List.replicate (MAX_LENGTH - ws.length) 0
          match err with
          | some e => some (.error e)
          | none => some (.ok (⟨prn, route⟩, payload_size, out_payload))

/-! ### KISS framing, from `src/src/kiss.rs`. -/

def FEND : Nat := 0xC0
def FESC : Nat := 0xDB
def TFEND : Nat := 0xDC
def TFESC : Nat := 0xDD
def CMD_DATA : Nat := 0x00

/-- `encode`'s per-byte escape map. -/
def kiss_escape (byte : Nat) : List Nat :=
  if byte = FEND then [FESC, TFEND]
  else if byte = FESC then [FESC, TFESC]
  else [byte]

/-- `kiss::encode`: FEND, command/port byte, escaped payload, FEND. -/
def kiss_encode (data : List Nat) (port : Nat) : List Nat :=
  FEND :: (CMD_DATA ||| ((port &&& 0x0F) <<< 4)) :: (data.flatMap kiss_escape ++ [FEND])

structure DecodedFrame where
  port : Nat
  bytes_read : Nat
  payload_size : Nat
deriving DecidableEq

/-- The state threaded through `kiss::decode`'s iterator pipeline: the
framing scan's `(start_frame, end_frame)`, the escape scan's `was_esc`, and
the final fold's `(out, port, last_idx, payload_size)`. -/
structure KissState where
  start_frame : Option Nat
  end_frame : Option Nat
  was_esc : Bool
  port : Option Nat
  out : List Nat
  last_idx : Option Nat
  payload_size : Option Nat
deriving DecidableEq

def kiss_init : KissState :=
  { start_frame := none, end_frame := none, was_esc := false,
    port := none, out := [], last_idx := none, payload_size := none }

/-- One input byte through the whole pipeline.  Stage 1 is the framing scan
(which stops yielding once both delimiters are found); stage 2 filters the
FEND delimiters out; stage 3 decodes escapes (unknown escapes drop the
byte); stage 4 is the fold filling `port` then pushing payload bytes. -/
def kiss_step (s : KissState) (p : Nat × Nat) : KissState :=
  let idx := p.1
  let byte := p.2
  if s.start_frame.isSome ∧ s.end_frame.isSome then s
  else
    let scan : KissState × Option Nat :=
      match s.start_frame with
      | none =>
          if byte = FEND then ({ s with start_frame := some idx }, some byte)
          else (s, none)
      | some start =>
          if byte = FEND then
            if start + 1 = idx then ({ s with start_frame := some idx }, some byte)
            else ({ s with end_frame := some idx }, some byte)
          else (s, some byte)
    let s1 := scan.1
    match scan.2 with
    | none => s1
    | some b =>
        if b = FEND then s1
        else if b = FESC then { s1 with was_esc := true }
        else
          let unescaped : Option Nat :=
            if s1.was_esc then
              if b = TFEND then some FEND
              else if b = TFESC then some FESC
              else none
            else some b
          let s2 := { s1 with was_esc := false }
          match unescaped with
          | none => s2
          | some v =>
              match s2.port with
              | none =>
                  { s2 with port := some (v >>> 4), last_idx := some idx,
                            payload_size := some s2.out.length }
              | some _ =>
                  let out := s2.out ++ [v]
                  { s2 with out := out, last_idx := some idx,
                            payload_size := some out.length }

/-- `kiss::decode` over a fresh output buffer: fold the pipeline over the
enumerated input, then assemble the result exactly as the source's final
`and_then` chain does (`bytes_read = last_idx + 2`). -/
def kiss_decode (data : List Nat) : Option DecodedFrame × List Nat :=
  let s := data.enum.foldl kiss_step kiss_init
  match s.port, s.last_idx, s.payload_size with
  | some port, some idx, some psize => (some ⟨port, idx + 2, psize⟩, s.out)
  | _, _, _ => (none, s.out)

/-! ### PRN generator, from `src/src/spec/prn_id.rs`. -/

structure PRN where
  current : Nat
  callsign : Nat
deriving DecidableEq

def prn_new (callsign : Nat) : PRN :=
  { current := 0xFFFFFFFF, callsign := callsign }

def prn_current (p : PRN) : Nat :=
  p.current ^^^ p.callsign

/-- One LFSR step (taps 25/26/30/32: shifts 32-25, 32-26, 32-30, 32-32)
followed by the callsign XOR.  Returns the emitted id and the new state. -/
def prn_next (p : PRN) : Nat × PRN :=
  let c := p.current
  let bit := ((c >>> 7) ^^^ (c >>> 6) ^^^ (c >>> 2) ^^^ (c >>> 0)) &&& 0x1
  let p2 := { p with current := (c >>> 1) ||| (bit <<< 31) }
  (prn_current p2, p2)

def prn_seed (p : PRN) (seed : Nat) : PRN :=
  { p with current := seed }

/-- The generator state after `n` calls of `next()`. -/
def prn_iter (p : PRN) : Nat → PRN
  | 0 => p
  | n + 1 => (prn_next (prn_iter p n)).2

/-- The LFSR state after `n` steps from `seed` (independent of callsign). -/
def lfsr_iter (seed : Nat) : Nat → Nat
  | 0 => seed
  | n + 1 =>
      let c := lfsr_iter seed n
      let bit := ((c >>> 7) ^^^ (c >>> 6) ^^^ (c >>> 2) ^^^ (c >>> 0)) &&& 0x1
      (c >>> 1) ||| (bit <<< 31)

/-- The id emitted by the `n`-th call of `next()` (n ≥ 1) on a generator
seeded with `seed` and owned by `callsign`. -/
def prn_output (callsign seed n : Nat) : Nat :=
  lfsr_iter seed n ^^^ callsign

/-! ### Seen-PRN ring, from `src/src/nbp/node/prn_table.rs`. -/

def TABLE_SIZE : Nat := 1000

structure PrnTable where
  prns : List Nat
  last_idx : Nat
deriving DecidableEq

def prn_table_new : PrnTable :=
  { prns := List.replicate TABLE_SIZE 0, last_idx := 0 }

/-- `add`: write at `last_idx`, advance, wrap at 1000.  (`last_idx` is below
`TABLE_SIZE` for every reachable table; out of range, Rust would panic where
`List.set` is a no-op.) -/
def prn_table_add (t : PrnTable) (prn : Nat) : PrnTable :=
  let prns := t.prns.set t.last_idx prn
  let idx := t.last_idx + 1
  { prns := prns, last_idx := if idx ≥ 1000 then 0 else idx }

def prn_table_contains (t : PrnTable) (prn : Nat) : Bool :=
  t.prns.any (fun search => search = prn)

/-! ### Transmit queue, from `src/src/spec/node/tx_queue.rs`. -/

def MAX_PACKET : Nat := 256
def BLOCK_SIZE : Nat := 50 * 1024
def CONGEST_CONTROL : Nat := 35 * 1024
def RETRY_COUNT : Nat := 4
def RETRY_DELAY_MS : Nat := 500

structure PendingPacket where
  packet : Frame
  next_send : Nat
  retry_count : Nat
  data_offset : Nat
  data_size : Nat
deriving DecidableEq

structure Queue where
  pending : List PendingPacket
  data : List Nat
deriving DecidableEq

def queue_new : Queue := { pending := [], data := [] }

inductive QueueError where
  | Discarded
deriving DecidableEq

/-- `enqueue`: reject if the shared payload vector would exceed
`BLOCK_SIZE`, else append the payload and record the entry. -/
def enqueue (q : Queue) (header : Frame) (payload : List Nat) :
    Except QueueError Queue :=
  if q.data.length + payload.length > BLOCK_SIZE then .error .Discarded
  else
    .ok { pending := q.pending ++ [{ packet := header,
                                     next_send := RETRY_DELAY_MS,
                                     retry_count := 0,
                                     data_offset := q.data.length,
                                     data_size := payload.length }],
          data := q.data ++ payload }

/-- `get_packet_data`: the entry's slice of the shared vector. -/
def packet_data (q : Queue) (p : PendingPacket) : List Nat :=
  (q.data.drop p.data_offset).take p.data_size

/-- `Queue::discard(idx)`: drain the entry's byte range, remove the entry,
shift down the offset of every surviving entry at or past the removed
range's end.  (Callers only pass in-range indices; Rust would panic
otherwise.) -/
def discard_at (q : Queue) (idx : Nat) : Queue :=
  match q.pending.get? idx with
  | none => q
  | some p =>
      let data_start := p.data_offset
      let data_end := data_start + p.data_size
      { pending := (q.pending.eraseIdx idx).map (fun packet =>
          if packet.data_offset ≥ data_end then
            { packet with data_offset := packet.data_offset - (data_end - data_start) }
          else packet),
        data := q.data.take data_start ++ q.data.drop data_end }

/-- `ack_recv`: discard the entry with the matching PRN, if any. -/
def ack_recv (q : Queue) (prn : Nat) : Queue × Bool :=
  match q.pending.findIdx? (fun pending => pending.packet.prn = prn) with
  | some idx => (discard_at q idx, true)
  | none => (q, false)

/-- Callback invocations made by `tick`, in order. -/
inductive Event where
  | retry (f : Frame) (data : List Nat) (next_send : Nat)
  | expire (f : Frame) (data : List Nat)
deriving DecidableEq

theorem discard_at_length (q : Queue) (idx : Nat) (h : idx < q.pending.length) :
    (discard_at q idx).pending.length = q.pending.length - 1 := by
  rcases hg : q.pending.get? idx with _ | p
  · rw [List.get?_eq_none] at hg; omega
  · simp [discard_at, hg, List.length_eraseIdx, h]

/-- The body of `Queue::tick`'s `while idx < pending.len()` loop.

The randomized backoff `(1.0 + retry_count * rand01()) * RETRY_DELAY_MS`
is modelled by the oracle list `rands`, one value consumed per retry; the
retry callback's `Result` is modelled by the oracle list `oks` (`false`
aborts the tick with the error, exactly as `return Err(e)` does).  Retry
and discard callback invocations are appended to `events` in call order.
The returned Bool is `false` when the tick aborted on a callback error. -/
def tick_loop (elapsed : Nat) (q : Queue) (idx : Nat) (rands : List Nat)
    (oks : List Bool) (events : List Event) : Queue × List Event × Bool :=
  if h : idx < q.pending.length then
    let p := q.pending.get ⟨idx, h⟩
    if p.next_send ≤ elapsed then
      let will_discard := RETRY_COUNT ≤ p.retry_count ∨ CONGEST_CONTROL < q.data.length
      if hr : p.retry_count < RETRY_COUNT then
        -- retry first: bump the count, draw the new delay, invoke the callback
        let next_send := rands.headD RETRY_DELAY_MS
        let p2 := { p with retry_count := p.retry_count + 1, next_send := next_send }
        let q2 : Queue := { q with pending := q.pending.set idx p2 }
        let ev2 := events ++ [Event.retry p2.packet (packet_data q2 p2) next_send]
        if oks.headD true then
          if will_discard then
            tick_loop elapsed (discard_at q2 idx) idx rands.tail oks.tail
              (ev2 ++ [Event.expire p2.packet (packet_data q2 p2)])
          else
            tick_loop elapsed q2 (idx + 1) rands.tail oks.tail ev2
        else (q2, ev2, false)
      else
        -- retry budget exhausted: discard without retrying
        tick_loop elapsed (discard_at q idx) idx rands oks
          (events ++ [Event.expire p.packet (packet_data q p)])
    else
      let p2 := { p with next_send := p.next_send - elapsed }
      tick_loop elapsed { q with pending := q.pending.set idx p2 } (idx + 1)
        rands oks events
  else (q, events, true)
termination_by q.pending.length - idx
decreasing_by
  · rw [discard_at_length _ _ (by simpa using h)]
    simp only [List.length_set]
    omega
  · simp only [List.length_set]
    omega
  · rw [discard_at_length _ _ h]
    omega
  · simp only [List.length_set]
    omega

/-- `Queue::tick`. -/
def tick (q : Queue) (elapsed : Nat) (rands : List Nat) (oks : List Bool) :
    Queue × List Event × Bool :=
  tick_loop elapsed q 0 rands oks []

/-! ### Node dispatch, from `src/src/spec/node/mod.rs`. -/

/-- The node state touched by `dispatch_recv` (the rolling receive buffers
belong to `recv` proper). -/
structure Node where
  prn : PRN
  recv_prn_table : PrnTable
  tx_queue : Queue
deriving DecidableEq

def node_new (callsign : Nat) : Node :=
  { prn := prn_new callsign, recv_prn_table := prn_table_new, tx_queue := queue_new }

inductive RecvError where
  | Routing
deriving DecidableEq

/-- `send_frame`: NBP-serialize then KISS-wrap on port 0.  The scratch
buffer is `MAX_PACKET_SIZE` bytes, which every dispatched frame
(route section of at most 18 words, payload at most `MTU`) fits, so the
cursor write error path is unreachable; the emitted bytes are returned. -/
def send_frame_bytes (header : Frame) (in_data : List Nat) : List Nat :=
  kiss_encode (to_bytes header (some in_data)) 0

/-- `dispatch_recv`: on success returns the new node state, the bytes
written to the transport, the `recv_drain` invocations and the
`observe_drain` invocations, in call order. -/
def dispatch_recv (node : Node) (packet : Frame) (payload : List Nat) :
    Except RecvError (Node × List Nat × List (Frame × List Nat) × List (Frame × List Nat)) :=
  if is_destination packet.address_route node.prn.callsign then
    if final_addr packet.address_route then
      if payload.length = 0 then
        -- an ack for one of our sent frames
        let q := (ack_recv node.tx_queue packet.prn).1
        .ok ({ node with tx_queue := q }, [], [(packet, payload)], [(packet, payload)])
      else
        -- terminal hop for a data frame: always ack, deliver only if unseen
        let ack := new_ack packet.prn (reverse_route packet.address_route)
        let ack_bytes := kiss_encode (to_bytes ack none) 0
        if prn_table_contains node.recv_prn_table packet.prn then
          .ok (node, ack_bytes, [], [(packet, payload)])
        else
          .ok ({ node with recv_prn_table := prn_table_add node.recv_prn_table packet.prn },
               ack_bytes, [(packet, payload)], [(packet, payload)])
    else
      -- intermediate hop: advance the route and re-emit, no ack
      match advance packet.address_route node.prn.callsign with
      | .error _ => .error .Routing
      | .ok route2 =>
          .ok (node, send_frame_bytes { packet with address_route := route2 } payload,
               [], [(packet, payload)])
  else
    .ok (node, [], [], [(packet, payload)])

/-! ### Address codec, from `src/src/nbp/address.rs`. -/

def SYMBOL_TABLE : List Char :=
  ['0', '1', '2', '3', '4', '5', '6', '7', '8', '9',
   'A', 'B', 'C', 'D', 'E', 'F', 'G', 'H', 'I', 'J', 'K', 'L', 'M',
   'N', 'O', 'P', 'Q', 'R', 'S', 'T', 'U', 'V', 'W', 'X', 'Y', 'Z']

/-- `SYMBOL_TABLE[symbol]`; callers only index below 36. -/
def symbol_to_character (symbol : Nat) : Char :=
  SYMBOL_TABLE.getD symbol '0'

def character_to_symbol (character : Char) : Option Nat :=
  match character with
  | '0' => Option.some 0 | '1' => Option.some 1 | '2' => Option.some 2 | '3' => Option.some 3
  | '4' => Option.some 4 | '5' => Option.some 5 | '6' => Option.some 6 | '7' => Option.some 7
  | '8' => Option.some 8 | '9' => Option.some 9
  | 'A' => Option.some 10 | 'B' => Option.some 11 | 'C' => Option.some 12 | 'D' => Option.some 13
  | 'E' => Option.some 14 | 'F' => Option.some 15 | 'G' => Option.some 16 | 'H' => Option.some 17
  | 'I' => Option.some 18 | 'J' => Option.some 19 | 'K' => Option.some 20 | 'L' => Option.some 21
  | 'M' => Option.some 22 | 'N' => Option.some 23 | 'O' => Option.some 24 | 'P' => Option.some 25
  | 'Q' => Option.some 26 | 'R' => Option.some 27 | 'S' => Option.some 28 | 'T' => Option.some 29
  | 'U' => Option.some 30 | 'V' => Option.some 31 | 'W' => Option.some 32 | 'X' => Option.some 33
  | 'Y' => Option.some 34 | 'Z' => Option.some 35
  | _ => Option.none

/-- Structural form of `encode_rec`'s recursion: `fuel = 6 - offset`, so
`fuel = 0` is exactly the source's `offset == 6` base case. -/
def encode_rec_go (address : List Char) (offset : Nat) : Nat → Option Nat
  | 0 => (character_to_symbol (address.getD 6 ' ')).map (fun x => x)
  | fuel + 1 =>
      (encode_rec_go address (offset + 1) fuel).bind (fun sub =>
        (character_to_symbol (address.getD offset ' ')).map (fun sym =>
          (sub * 36 + sym) % 4294967296))

/-- `encode_rec`: little-endian base-36 accumulation `sub * 36 + sym` in
u32 arithmetic, so it wraps modulo 2^32 (release semantics; the source is
only ever called with `offset ≤ 6`). -/
def encode_rec (address : List Char) (offset : Nat) : Option Nat :=
  encode_rec_go address offset (6 - offset)

/-- `encode`: the all-asterisk broadcast spelling, else `encode_rec`.
(The source tests `address == ['*'; 7] || address == BROADCAST_ADDRESS`,
two spellings of the same array.) -/
def encode (address : List Char) : Option Nat :=
  if address = List.replicate 7 '*' then some 0xFFFFFFFF
  else encode_rec address 0

/-- `decode`: seven base-36 digits, least significant first, written over a
`['0'; 7]` array. -/
def decode (address : Nat) : List Char :=
  ((List.range 7).foldl
    (fun (acc : List Char × Nat) i =>
      (acc.1.set i (symbol_to_character (acc.2 % 36)), acc.2 / 36))
    (List.replicate 7 '0', address)).1

/-! ## Theorems -/

/-! ### Generic list helpers -/

theorem getD_of_lt {a : Type} (l : List a) (n : Nat) (d : a) (h : n < l.length) :
    l.getD n d = l[n] := by
  simp [List.getD_eq_getElem?_getD, List.getElem?_eq_getElem h]

/-! ### Claim C2 — `kiss::decode` on inputs without a closing FEND.

The spec says `decode` returns `None` when no complete frame (no closing
FEND) is present.  The implementation's final fold populates `port`,
`last_idx` and `payload_size` for every byte after an opening FEND
regardless of whether the closing FEND was ever seen, so it returns `Some`
for the two-byte input `[FEND, CMD_DATA]`, which has no closing FEND — and
its `bytes_read` of 3 even exceeds the input length.  The spec (and the
decoder's own doc comment, which promises `None` when no frame is found,
plus `Node::recv`, which drains `bytes_read` bytes from its buffer) is the
evident intent; the code is in error. -/

/-- C2: on the input `[FEND, CMD_DATA]` — an opening FEND and a command
byte but no closing FEND — `kiss::decode` returns `Some` (port 0,
`bytes_read` 3, empty payload), not `None` as specified. -/
theorem C2_kiss_decode_some_without_closing_fend :
    (kiss_decode [0xC0, 0x00]).1 =
      some { port := 0, bytes_read := 3, payload_size := 0 } := by decide

/-! ### Claim C9 — `decode` results can overrun the receive buffer.

On `[FEND, CMD_DATA, 0x12]` (no closing FEND) `decode` returns
`bytes_read = 4` on a 3-byte input, so `Node::recv`'s
`recv_buffer.drain(..bytes_read)` would panic.  The claimed bound
`bytes_read ≤ input length` is what the code's own usage requires; the
code violates it. -/

/-- C9: `kiss::decode` on the 3-byte input `[FEND, CMD_DATA, 0x12]`
returns `bytes_read = 4`, exceeding the input length. -/
theorem C9_kiss_decode_bytes_read_exceeds_input :
    (kiss_decode [0xC0, 0x00, 0x12]).1 =
        some { port := 0, bytes_read := 4, payload_size := 1 } ∧
      [0xC0, 0x00, 0x12].length = 3 := by decide

/-! ### Claim C5 — `routing::advance`.

The success/failure conditions of the claim hold, but the separator moves
one slot towards the front (`new_route[sep_idx-1]` receives the old
`route[sep_idx] = 0`), not towards the back, and the node's address lands
at the old separator index, i.e. just *after* the new separator. -/

/-- C5 counterexample: on the 17-word route `[1,2,0,3,…,16]` (single
separator at index 2) with `self = 99`, `advance` yields
`[2,0,99,3,…,16]`: the separator index drops from 2 to 1 (not 3 as
claimed), and the slot at the new separator index holds 0, not `self`. -/
theorem C5_counterexample :
    sep_index [1, 2, 0, 3, 4, 5, 6, 7, 8, 9, 10, 11, 12, 13, 14, 15, 16] = some 2 ∧
      advance [1, 2, 0, 3, 4, 5, 6, 7, 8, 9, 10, 11, 12, 13, 14, 15, 16] 99 =
        .ok [2, 0, 99, 3, 4, 5, 6, 7, 8, 9, 10, 11, 12, 13, 14, 15, 16] ∧
      sep_index [2, 0, 99, 3, 4, 5, 6, 7, 8, 9, 10, 11, 12, 13, 14, 15, 16] = some 1 ∧
      ¬(sep_index [2, 0, 99, 3, 4, 5, 6, 7, 8, 9, 10, 11, 12, 13, 14, 15, 16] = some 3 ∧
        List.getD [2, 0, 99, 3, 4, 5, 6, 7, 8, 9, 10, 11, 12, 13, 14, 15, 16] 3 0 = 99) := by
  decide

/-- C5 (amended): for a 17-word route, `advance(r, self)` fails when there
is no separator or the (first) separator sits at index 0 or 16; it
succeeds when the separator index `k` is in `[1, 15]`, and then the
resulting route has its separator index exactly one *less* than `r` and
carries `self` at index `k`, the slot just after the new separator. -/
theorem C5_route_advance (r : Route) (self k : Nat) (hlen : r.length = 17) :
    (sep_index r = none → advance r self = .error .BadFormat) ∧
      (sep_index r = some 0 → advance r self = .error .BadFormat) ∧
      (sep_index r = some 16 → advance r self = .error .BadFormat) ∧
      (sep_index r = some k → 1 ≤ k → k ≤ 15 →
        ∃ r', advance r self = .ok r' ∧ r'.length = 17 ∧
          sep_index r' = some (k - 1) ∧ r'.getD k 0 = self) := by
  refine ⟨?_, ?_, ?_, ?_⟩
  · intro h
    simp only [advance, h]
  · intro h
    simp [advance, h]
  · intro h
    simp [advance, h, hlen]
  · intro hk h1 h15
    obtain ⟨hklt, hpk, hprev⟩ := List.findIdx?_eq_some_iff_getElem.mp hk
    rw [decide_eq_true_eq] at hpk
    refine ⟨(List.range r.length).map (fun i =>
        if i < k then r.getD (i + 1) 0
        else if i = k then self else r.getD i 0), ?_, ?_, ?_, ?_⟩
    · simp only [advance, hk]
      rw [if_neg (by omega)]
    · simp [hlen]
    · rw [sep_index]
      apply List.findIdx?_eq_some_iff_getElem.mpr
      have hl2 : ((List.range r.length).map (fun i =>
          if i < k then r.getD (i + 1) 0
          else if i = k then self else r.getD i 0)).length = r.length := by simp
      refine ⟨by omega, ?_, ?_⟩
      · rw [List.getElem_map, List.getElem_range, if_pos (by omega)]
        have hkk : k - 1 + 1 = k := by omega
        rw [hkk, decide_eq_true_eq, getD_of_lt r k 0 (by omega)]
        exact hpk
      · intro j hj
        rw [List.getElem_map, List.getElem_range, if_pos (by omega)]
        have hj1 : j + 1 < k := by omega
        rw [decide_eq_true_eq, getD_of_lt r (j + 1) 0 (by omega)]
        simpa using hprev (j + 1) hj1
    · rw [getD_of_lt _ k 0 (by simp; omega)]
      rw [List.getElem_map, List.getElem_range, if_neg (by omega), if_pos rfl]

/-- C5 witness: the amended theorem applied to the counterexample's route
(separator at index 2, `self = 99`). -/
theorem C5_route_advance_witness :
    ∃ r', advance [1, 2, 0, 3, 4, 5, 6, 7, 8, 9, 10, 11, 12, 13, 14, 15, 16] 99 = .ok r' ∧
      r'.length = 17 ∧ sep_index r' = some 1 ∧ r'.getD 2 0 = 99 :=
  (C5_route_advance [1, 2, 0, 3, 4, 5, 6, 7, 8, 9, 10, 11, 12, 13, 14, 15, 16] 99 2
      (by decide)).2.2.2 (by decide) (by decide) (by decide)

/-! ### Claim C7 — PRN streams of different callsigns.

Both generators step the same LFSR from the same seed, so the claim of
1024-step *disjointness* fails: whenever `a ^^^ b` equals the XOR of two
LFSR states within range, the streams collide across steps.  What does
hold (and what the source's `test_unique_seq` exercises) is stepwise
distinctness: the two streams never agree at the same step. -/

/-- After `n` steps the generator holds the `n`-th LFSR state and its
callsign is untouched. -/
theorem prn_iter_eq (s c n : Nat) :
    prn_iter { current := s, callsign := c } n =
      { current := lfsr_iter s n, callsign := c } := by
  induction n with
  | zero => rfl
  | succ n ih => simp [prn_iter, prn_next, ih, lfsr_iter]

/-- C7 counterexample: the callsigns `0x40000001` and `1` differ, yet with
identical (fresh) seeding the first generator's step-1 output equals the
second generator's step-2 output — the 1024-step output sets are not
disjoint. -/
theorem C7_counterexample :
    (1073741825 : Nat) ≠ 1 ∧
      prn_current (prn_iter (prn_new 1073741825) 1) =
        prn_current (prn_iter (prn_new 1) 2) := by decide

/-- C7 (amended): two PRN generators with different callsigns and the same
seed never emit the same packet id at the same step: for every step count
`n` the `n`-th outputs differ. -/
theorem C7_prn_stepwise_distinct (a b seed n : Nat) (hab : a ≠ b) :
    prn_current (prn_iter (prn_seed (prn_new a) seed) n) ≠
      prn_current (prn_iter (prn_seed (prn_new b) seed) n) := by
  have ha := prn_iter_eq seed a n
  have hb := prn_iter_eq seed b n
  simp only [prn_seed, prn_new] at *
  rw [ha, hb]
  simp only [prn_current]
  intro hc
  exact hab (Nat.xor_right_inj.mp hc)

/-- C7 witness: the amended theorem at the two callsigns of the source's
`test_unique_seq` (`KI7EST0` and `KF7SJK0`), seed `0xFFFFFFFF`, step 5. -/
theorem C7_prn_stepwise_distinct_witness :
    prn_current (prn_iter (prn_seed (prn_new 1801211276) 0xFFFFFFFF) 5) ≠
      prn_current (prn_iter (prn_seed (prn_new 1793848685) 0xFFFFFFFF) 5) :=
  C7_prn_stepwise_distinct 1801211276 1793848685 0xFFFFFFFF 5 (by decide)

/-! ### Claim C6 — address codec round-trip.

`encode` accumulates `sub * 36 + sym` in u32 arithmetic, and seven base-36
digits can denote values up to `36^7 - 1 ≈ 78.4e9 > 2^32`, so `encode`
overflows (wraps) for large callsigns and the round-trip fails — e.g. for
`"ZZZZZZZ"`.  The round-trip does hold on the callsigns whose base-36
value fits in a u32. -/

/-- Inverting `character_to_symbol`: a character mapped to symbol `k` is in
the 36-symbol alphabet (`k ≤ 35`), is recovered by `symbol_to_character`,
and is not the broadcast asterisk (code 42). -/
theorem character_to_symbol_inv (c : Char) (k : Nat)
    (h : character_to_symbol c = some k) :
    k ≤ 35 ∧ symbol_to_character k = c ∧ c ≠ Char.ofNat 42 := by
  unfold character_to_symbol at h
  split at h <;> simp_all <;> subst h <;> decide

/-- C6 counterexample: `"ZZZZZZZ"` is a 7-character string over the
callsign alphabet, `encode` returns `Some` of the wrapped value
`(36^7 - 1) % 2^32 = 1054752767`, and decoding that value does not give
`"ZZZZZZZ"` back. -/
theorem C6_counterexample :
    (∀ c ∈ List.replicate 7 'Z', (character_to_symbol c).isSome) ∧
      encode (List.replicate 7 'Z') = some 1054752767 ∧
      decode 1054752767 ≠ List.replicate 7 'Z' := by decide

/-- C6 (amended): for every 7-character string over the callsign alphabet
whose base-36 value `k0 + 36*k1 + … + 36^6*k6` is below `2^32`, `encode`
returns `Some` of exactly that value and `decode` maps it back to the
original string. -/
theorem C6_address_roundtrip (c0 c1 c2 c3 c4 c5 c6 : Char) (k0 k1 k2 k3 k4 k5 k6 : Nat)
    (h0 : character_to_symbol c0 = some k0)
    (h1 : character_to_symbol c1 = some k1)
    (h2 : character_to_symbol c2 = some k2)
    (h3 : character_to_symbol c3 = some k3)
    (h4 : character_to_symbol c4 = some k4)
    (h5 : character_to_symbol c5 = some k5)
    (h6 : character_to_symbol c6 = some k6)
    (hv : k0 + 36 * k1 + 1296 * k2 + 46656 * k3 + 1679616 * k4 + 60466176 * k5
        + 2176782336 * k6 < 4294967296) :
    encode [c0, c1, c2, c3, c4, c5, c6] =
        some (k0 + 36 * k1 + 1296 * k2 + 46656 * k3 + 1679616 * k4 + 60466176 * k5
          + 2176782336 * k6) ∧
      decode (k0 + 36 * k1 + 1296 * k2 + 46656 * k3 + 1679616 * k4 + 60466176 * k5
        + 2176782336 * k6) = [c0, c1, c2, c3, c4, c5, c6] := by
  obtain ⟨b0, s0, n0⟩ := character_to_symbol_inv c0 k0 h0
  obtain ⟨b1, s1, n1⟩ := character_to_symbol_inv c1 k1 h1
  obtain ⟨b2, s2, n2⟩ := character_to_symbol_inv c2 k2 h2
  obtain ⟨b3, s3, n3⟩ := character_to_symbol_inv c3 k3 h3
  obtain ⟨b4, s4, n4⟩ := character_to_symbol_inv c4 k4 h4
  obtain ⟨b5, s5, n5⟩ := character_to_symbol_inv c5 k5 h5
  obtain ⟨b6, s6, n6⟩ := character_to_symbol_inv c6 k6 h6
  constructor
  · rw [encode, if_neg (by
      intro hc
      apply n0
      have hc0 : c0 = Char.ofNat 42 := by
        have := congrArg (fun l => l.getD 0 ' ') hc
        simpa using this
      exact hc0)]
    rw [encode_rec]
    simp [encode_rec_go, h0, h1, h2, h3, h4, h5, h6]
    omega
  · have hr : List.range 7 = [0, 1, 2, 3, 4, 5, 6] := rfl
    rw [decode, hr]
    simp only [List.foldl]
    have d0 : (k0 + 36 * k1 + 1296 * k2 + 46656 * k3 + 1679616 * k4 + 60466176 * k5
        + 2176782336 * k6) % 36 = k0 := by omega
    have d1 : (k0 + 36 * k1 + 1296 * k2 + 46656 * k3 + 1679616 * k4 + 60466176 * k5
        + 2176782336 * k6) / 36 % 36 = k1 := by omega
    have d2 : (k0 + 36 * k1 + 1296 * k2 + 46656 * k3 + 1679616 * k4 + 60466176 * k5
        + 2176782336 * k6) / 36 / 36 % 36 = k2 := by omega
    have d3 : (k0 + 36 * k1 + 1296 * k2 + 46656 * k3 + 1679616 * k4 + 60466176 * k5
        + 2176782336 * k6) / 36 / 36 / 36 % 36 = k3 := by omega
    have d4 : (k0 + 36 * k1 + 1296 * k2 + 46656 * k3 + 1679616 * k4 + 60466176 * k5
        + 2176782336 * k6) / 36 / 36 / 36 / 36 % 36 = k4 := by omega
    have d5 : (k0 + 36 * k1 + 1296 * k2 + 46656 * k3 + 1679616 * k4 + 60466176 * k5
        + 2176782336 * k6) / 36 / 36 / 36 / 36 / 36 % 36 = k5 := by omega
    have d6 : (k0 + 36 * k1 + 1296 * k2 + 46656 * k3 + 1679616 * k4 + 60466176 * k5
        + 2176782336 * k6) / 36 / 36 / 36 / 36 / 36 / 36 % 36 = k6 := by omega
    rw [d0, d1, d2, d3, d4, d5, d6, s0, s1, s2, s3, s4, s5, s6]
    rfl

/-- C6 witness: the amended round-trip at the callsign `KI7EST0`
(base-36 value 1801211276, well below 2^32). -/
theorem C6_address_roundtrip_witness :
    encode ['K', 'I', '7', 'E', 'S', 'T', '0'] = some 1801211276 ∧
      decode 1801211276 = ['K', 'I', '7', 'E', 'S', 'T', '0'] := by
  have h := C6_address_roundtrip 'K' 'I' '7' 'E' 'S' 'T' '0' 20 18 7 14 28 29 0
    rfl rfl rfl rfl rfl rfl rfl (by decide)
  simpa using h

/-! ### Claim C4 — duplicate suppression at the final hop. -/

/-- A PRN just added to the seen-table is contained in it (the write index
is in range for every reachable table). -/
theorem prn_table_add_contains (t : PrnTable) (x : Nat)
    (h : t.last_idx < t.prns.length) :
    prn_table_contains (prn_table_add t x) x = true := by
  have hp : (prn_table_add t x).prns = t.prns.set t.last_idx x := rfl
  rw [prn_table_contains, hp, List.any_eq_true]
  exact ⟨x, List.mem_set t.prns t.last_idx h x, by simp⟩

/-- C4: a node that is the final hop (`route[0]` its callsign, separator at
route index 1) receiving the same non-empty-payload data frame twice —
with the frame's PRN not yet in the seen-table, which is well formed —
writes the same non-empty KISS-wrapped ack to the transport on both
deliveries, but invokes `recv_drain` exactly once, on the first delivery;
the second delivery is suppressed by the seen-PRN table (both deliveries
still reach `observe_drain`). -/
theorem C4_duplicate_suppression (node : Node) (packet : Frame) (payload : List Nat)
    (hroute0 : packet.address_route.getD 0 0 = node.prn.callsign)
    (hroute1 : packet.address_route.getD 1 0 = 0)
    (hpay : payload ≠ [])
    (htbl_len : node.recv_prn_table.prns.length = TABLE_SIZE)
    (htbl_idx : node.recv_prn_table.last_idx < TABLE_SIZE)
    (hseen : prn_table_contains node.recv_prn_table packet.prn = false) :
    ∃ node2,
      dispatch_recv node packet payload =
        .ok (node2,
          kiss_encode (to_bytes (new_ack packet.prn (reverse_route packet.address_route)) none) 0,
          [(packet, payload)], [(packet, payload)]) ∧
      dispatch_recv node2 packet payload =
        .ok (node2,
          kiss_encode (to_bytes (new_ack packet.prn (reverse_route packet.address_route)) none) 0,
          [], [(packet, payload)]) ∧
      kiss_encode (to_bytes (new_ack packet.prn (reverse_route packet.address_route)) none) 0
        ≠ [] := by
  have h0g : packet.address_route[0]?.getD 0 = node.prn.callsign := by
    simpa using hroute0
  have h1g : packet.address_route[1]?.getD 0 = 0 := by
    simpa using hroute1
  have hdest : is_destination packet.address_route node.prn.callsign = true := by
    simp [is_destination, h0g]
  have hfinal : final_addr packet.address_route = true := by
    simp [final_addr, h1g, ADDRESS_SEPARATOR]
  have hlen0 : ¬(payload.length = 0) := by simpa using hpay
  refine ⟨{ node with recv_prn_table := prn_table_add node.recv_prn_table packet.prn },
    ?_, ?_, ?_⟩
  · rw [dispatch_recv]
    simp only [hdest, hfinal, if_true, hlen0, if_false, hseen]
    simp
  · rw [dispatch_recv]
    simp only [hdest, hfinal, if_true, hlen0, if_false]
    have hc : prn_table_contains (prn_table_add node.recv_prn_table packet.prn) packet.prn
        = true :=
      prn_table_add_contains node.recv_prn_table packet.prn (by omega)
    simp [hc]
  · simp [kiss_encode]

/-- C4 witness: a fresh node with callsign 42 receiving the frame with
PRN 555 and route `[42, 0, 99, 0, …]` carrying payload `[1, 2, 3]`. -/
theorem C4_duplicate_suppression_witness :
    ∃ node2,
      dispatch_recv (node_new 42)
          { prn := 555, address_route := [42, 0, 99] ++ List.replicate 14 0 } [1, 2, 3] =
        .ok (node2,
          kiss_encode (to_bytes (new_ack 555
            (reverse_route ([42, 0, 99] ++ List.replicate 14 0))) none) 0,
          [({ prn := 555, address_route := [42, 0, 99] ++ List.replicate 14 0 }, [1, 2, 3])],
          [({ prn := 555, address_route := [42, 0, 99] ++ List.replicate 14 0 }, [1, 2, 3])]) ∧
      dispatch_recv node2
          { prn := 555, address_route := [42, 0, 99] ++ List.replicate 14 0 } [1, 2, 3] =
        .ok (node2,
          kiss_encode (to_bytes (new_ack 555
            (reverse_route ([42, 0, 99] ++ List.replicate 14 0))) none) 0,
          [],
          [({ prn := 555, address_route := [42, 0, 99] ++ List.replicate 14 0 }, [1, 2, 3])]) ∧
      kiss_encode (to_bytes (new_ack 555
        (reverse_route ([42, 0, 99] ++ List.replicate 14 0))) none) 0 ≠ [] :=
  C4_duplicate_suppression (node_new 42)
    { prn := 555, address_route := [42, 0, 99] ++ List.replicate 14 0 } [1, 2, 3]
    (by decide) (by decide) (by decide) (by decide) (by decide) (by decide)

/-! ### Claim C1 — NBP frame round-trip.

`to_bytes` then `from_bytes` (at the serialized size) recovers the frame
and payload for every frame whose 17-word route is a non-empty all-nonzero
forward path, the separator, an all-nonzero return path and zero padding,
and every payload of at most `MTU` bytes.  The two cases of the wire
format — at most 17 route words emitted (padding present, `k ≥ 1`) and the
degenerate 18-word case (`k = 0`, where the parser checks a trailing
separator that is not stored) — are handled separately. -/


theorem crc_u8_step_lt (b c i : Nat) : crc_u8_step b c i < 65536 := by
  simp only [crc_u8_step]
  have hshift : c <<< 1 = c * 2 := by rw [Nat.shiftLeft_eq]
  rw [hshift]
  split
  · have hlt : (if b &&& 0x80 >>> i = 0x80 >>> i then c * 2 % 65536 + 1 else c * 2 % 65536)
        < 65536 := by split <;> omega
    have h2 : (65536 : Nat) = 2 ^ 16 := by norm_num
    rw [h2] at hlt ⊢
    exact Nat.xor_lt_two_pow hlt (by decide)
  · split <;> omega

theorem crc_finish_step_lt (c i : Nat) : crc_finish_step c i < 65536 := by
  simp only [crc_finish_step]
  have hshift : c <<< 1 = c * 2 := by rw [Nat.shiftLeft_eq]
  rw [hshift]
  split
  · have hlt : c * 2 % 65536 < 65536 := by omega
    have h2 : (65536 : Nat) = 2 ^ 16 := by norm_num
    rw [h2] at hlt ⊢
    exact Nat.xor_lt_two_pow hlt (by decide)
  · omega

theorem crc_finish_lt (c : Nat) : crc_finish c < 65536 := by
  have hr : List.range 16 = [0, 1, 2, 3, 4, 5, 6, 7, 8, 9, 10, 11, 12, 13, 14, 15] := rfl
  rw [crc_finish, hr]
  simp only [List.foldl]
  exact crc_finish_step_lt _ _

theorem read_u32_of_u32_be (w : Nat) (rest : List Nat) (h : w < 4294967296) :
    read_u32 (u32_be w ++ rest) = some (w, rest) := by
  rw [u32_be]
  show read_u32 ((w >>> 24) % 256 :: (w >>> 16) % 256 :: (w >>> 8) % 256 :: w % 256 :: rest)
    = some (w, rest)
  rw [read_u32]
  simp only [Nat.shiftRight_eq_div_pow, Option.some.injEq, Prod.mk.injEq]
  exact ⟨by omega, trivial⟩

theorem read_u16_of_u16_be (w : Nat) (rest : List Nat) (h : w < 65536) :
    read_u16 (u16_be w ++ rest) = some (w, rest) := by
  rw [u16_be]
  show read_u16 ((w >>> 8) % 256 :: w % 256 :: rest) = some (w, rest)
  rw [read_u16]
  simp only [Nat.shiftRight_eq_div_pow, Option.some.injEq, Prod.mk.injEq]
  exact ⟨by omega, trivial⟩


theorem length_flatMap_u32_be (l : List Nat) : (l.flatMap u32_be).length = 4 * l.length := by
  induction l with
  | nil => rfl
  | cons a t ih =>
    simp only [List.flatMap_cons, List.length_append, ih, u32_be, List.length_cons]
    simp
    omega

theorem write_route_words_fwd (fwd rest : List Nat) (h : ∀ a ∈ fwd, a ≠ 0) :
    write_route_words (fwd ++ 0 :: rest) 0 = fwd ++ 0 :: write_route_words rest 1 := by
  induction fwd with
  | nil => simp [write_route_words, ADDRESS_SEPARATOR]
  | cons a t ih =>
    have ha : a ≠ 0 := h a (by simp)
    simp only [List.cons_append, write_route_words, ADDRESS_SEPARATOR, List.append_eq]
    rw [if_neg ha]
    simp only [if_neg (by omega : (0:Nat) ≠ 2)]
    rw [ih (fun x hx => h x (by simp [hx]))]

theorem write_route_words_ret (ret rest : List Nat) (h : ∀ a ∈ ret, a ≠ 0) :
    write_route_words (ret ++ 0 :: rest) 1 = ret ++ [0] := by
  induction ret with
  | nil => simp [write_route_words, ADDRESS_SEPARATOR]
  | cons a t ih =>
    have ha : a ≠ 0 := h a (by simp)
    simp only [List.cons_append, write_route_words, ADDRESS_SEPARATOR, List.append_eq]
    rw [if_neg ha]
    simp only [if_neg (by omega : (1:Nat) ≠ 2)]
    rw [ih (fun x hx => h x (by simp [hx]))]

theorem write_route_words_ret_none (ret : List Nat) (h : ∀ a ∈ ret, a ≠ 0) :
    write_route_words ret 1 = ret := by
  induction ret with
  | nil => rfl
  | cons a t ih =>
    have ha : a ≠ 0 := h a (by simp)
    simp only [write_route_words, ADDRESS_SEPARATOR]
    rw [if_neg ha]
    simp only [if_neg (by omega : (1:Nat) ≠ 2)]
    rw [ih (fun x hx => h x (by simp [hx]))]

theorem route_words_eq (fwd ret : List Nat) (k : Nat)
    (hf : ∀ a ∈ fwd, a ≠ 0) (hr : ∀ a ∈ ret, a ≠ 0) :
    route_words (fwd ++ 0 :: (ret ++ List.replicate k 0)) = fwd ++ 0 :: (ret ++ [0]) := by
  have hfc : fwd.count 0 = 0 := by
    rw [List.count_eq_zero]
    intro hc
    exact hf 0 hc rfl
  have hrc : ret.count 0 = 0 := by
    rw [List.count_eq_zero]
    intro hc
    exact hr 0 hc rfl
  cases k with
  | zero =>
    rw [route_words]
    simp only [List.replicate, List.append_nil]
    rw [write_route_words_fwd fwd ret hf, write_route_words_ret_none ret hr]
    rw [if_pos (by
      simp [ADDRESS_SEPARATOR, List.count_append, List.count_cons, hfc, hrc])]
    simp [ADDRESS_SEPARATOR]
  | succ k =>
    rw [route_words]
    have hrep : ret ++ List.replicate (k + 1) 0 = (ret ++ 0 :: List.replicate k 0) := by
      simp [List.replicate]
    rw [hrep, write_route_words_fwd fwd _ hf, write_route_words_ret ret _ hr]
    rw [if_neg (by
      simp [ADDRESS_SEPARATOR, List.count_append, List.count_cons, hfc, hrc])]


theorem read_route_words_ret (ret : List Nat) (fuel : Nat) (rest : List Nat)
    (h : ∀ a ∈ ret, a ≠ 0 ∧ a < 4294967296) (hfuel : ret.length < fuel) :
    read_route_words fuel 1 ((ret ++ [0]).flatMap u32_be ++ rest) = some (ret ++ [0], 2, rest) := by
  induction ret generalizing fuel with
  | nil =>
    cases fuel with
    | zero => omega
    | succ f =>
      simp only [List.nil_append, List.flatMap_cons, List.flatMap_nil, List.append_nil]
      rw [read_route_words, read_u32_of_u32_be 0 rest (by norm_num)]
      simp [ADDRESS_SEPARATOR]
  | cons a t ih =>
    cases fuel with
    | zero => omega
    | succ f =>
      have ha := h a (by simp)
      simp only [List.cons_append, List.flatMap_cons, List.append_assoc]
      rw [read_route_words, read_u32_of_u32_be a _ ha.2]
      simp only [ADDRESS_SEPARATOR]
      rw [if_neg ha.1]
      rw [if_neg (by omega : ¬(1:Nat) = 2)]
      rw [ih f (fun x hx => h x (by simp [hx])) (by simp at hfuel; omega)]

theorem read_route_words_full (fwd ret : List Nat) (fuel : Nat) (rest : List Nat)
    (hf : ∀ a ∈ fwd, a ≠ 0 ∧ a < 4294967296)
    (hr : ∀ a ∈ ret, a ≠ 0 ∧ a < 4294967296)
    (hfuel : fwd.length + ret.length + 2 ≤ fuel) :
    read_route_words fuel 0 ((fwd ++ 0 :: (ret ++ [0])).flatMap u32_be ++ rest)
      = some (fwd ++ 0 :: (ret ++ [0]), 2, rest) := by
  induction fwd generalizing fuel with
  | nil =>
    cases fuel with
    | zero => omega
    | succ f =>
      simp only [List.nil_append, List.flatMap_cons, List.append_assoc]
      rw [read_route_words, read_u32_of_u32_be 0 _ (by norm_num)]
      simp only [ADDRESS_SEPARATOR, if_true]
      rw [if_neg (by omega : ¬(0+1:Nat) = 2)]
      rw [read_route_words_ret ret f rest hr (by simp at hfuel; omega)]
  | cons a t ih =>
    cases fuel with
    | zero => omega
    | succ f =>
      have ha := hf a (by simp)
      simp only [List.cons_append, List.flatMap_cons, List.append_assoc]
      rw [read_route_words, read_u32_of_u32_be a _ ha.2]
      simp only [ADDRESS_SEPARATOR]
      rw [if_neg ha.1]
      rw [if_neg (by omega : ¬(0:Nat) = 2)]
      rw [ih f (fun x hx => hf x (by simp [hx])) (by simp at hfuel; omega)]

theorem read_route_words_stop (ret : List Nat) (fuel : Nat) (rest : List Nat)
    (h : ∀ a ∈ ret, a ≠ 0 ∧ a < 4294967296) (hfuel : fuel = ret.length) :
    read_route_words fuel 1 (ret.flatMap u32_be ++ rest) = some (ret, 1, rest) := by
  induction ret generalizing fuel with
  | nil =>
    subst hfuel
    rfl
  | cons a t ih =>
    subst hfuel
    have ha := h a (by simp)
    simp only [List.flatMap_cons, List.append_assoc, List.length_cons]
    rw [read_route_words, read_u32_of_u32_be a _ ha.2]
    simp only [ADDRESS_SEPARATOR]
    rw [if_neg ha.1]
    rw [if_neg (by omega : ¬(1:Nat) = 2)]
    rw [ih t.length (fun x hx => h x (by simp [hx])) rfl]

theorem read_route_words_part (fwd ret : List Nat) (fuel : Nat) (rest : List Nat)
    (hf : ∀ a ∈ fwd, a ≠ 0 ∧ a < 4294967296)
    (hr : ∀ a ∈ ret, a ≠ 0 ∧ a < 4294967296)
    (hfuel : fuel = fwd.length + ret.length + 1) :
    read_route_words fuel 0 ((fwd ++ 0 :: ret).flatMap u32_be ++ rest)
      = some (fwd ++ 0 :: ret, 1, rest) := by
  induction fwd generalizing fuel with
  | nil =>
    subst hfuel
    simp only [List.nil_append, List.flatMap_cons, List.append_assoc, List.length_nil]
    have h0 : (0:Nat) + ret.length + 1 = ret.length + 1 := by omega
    rw [h0, read_route_words, read_u32_of_u32_be 0 _ (by norm_num)]
    simp only [ADDRESS_SEPARATOR, if_true]
    rw [if_neg (by omega : ¬(0+1:Nat) = 2)]
    rw [read_route_words_stop ret ret.length rest hr rfl]
  | cons a t ih =>
    subst hfuel
    have ha := hf a (by simp)
    simp only [List.cons_append, List.flatMap_cons, List.append_assoc, List.length_cons]
    have h1 : t.length + 1 + ret.length + 1 = (t.length + ret.length + 1) + 1 := by omega
    rw [h1, read_route_words, read_u32_of_u32_be a _ ha.2]
    simp only [ADDRESS_SEPARATOR]
    rw [if_neg ha.1]
    rw [if_neg (by omega : ¬(0:Nat) = 2)]
    rw [ih (t.length + ret.length + 1) (fun x hx => hf x (by simp [hx])) rfl]


theorem from_to_bytes_pad (prn : Nat) (fwd ret payload : List Nat) (k : Nat)
    (hprn : prn < 4294967296)
    (hfwd : ∀ a ∈ fwd, a ≠ 0 ∧ a < 4294967296)
    (hret : ∀ a ∈ ret, a ≠ 0 ∧ a < 4294967296)
    (hlen : fwd.length + 1 + ret.length + (k + 1) = 17)
    (hpay : payload.length ≤ MTU) :
    from_bytes (to_bytes ⟨prn, fwd ++ 0 :: (ret ++ List.replicate (k + 1) 0)⟩ (some payload))
        (to_bytes ⟨prn, fwd ++ 0 :: (ret ++ List.replicate (k + 1) 0)⟩ (some payload)).length
      = some (.ok (⟨prn, fwd ++ 0 :: (ret ++ List.replicate (k + 1) 0)⟩, payload.length,
          payload ++ List.replicate (MTU - payload.length) 0)) := by
  have hW : route_words (fwd ++ 0 :: (ret ++ List.replicate (k + 1) 0))
      = fwd ++ 0 :: (ret ++ [0]) :=
    route_words_eq fwd ret (k + 1) (fun a ha => (hfwd a ha).1) (fun a ha => (hret a ha).1)
  have hbytes : to_bytes ⟨prn, fwd ++ 0 :: (ret ++ List.replicate (k + 1) 0)⟩ (some payload)
      = u32_be prn ++ ((fwd ++ 0 :: (ret ++ [0])).flatMap u32_be ++ (payload ++
          u16_be (crc_finish (crc_bytes payload ((fwd ++ 0 :: (ret ++ [0])).foldl
            (fun c w => update_u32 w c) (update_u32 prn crc_new)))))) := by
    rw [to_bytes]
    simp only [hW, List.append_assoc]
  have hsize : (to_bytes ⟨prn, fwd ++ 0 :: (ret ++ List.replicate (k + 1) 0)⟩ (some payload)).length
      = 4 + (fwd.length + ret.length + 2) * 4 + 2 + payload.length := by
    rw [hbytes]
    simp only [List.length_append, length_flatMap_u32_be, u32_be, u16_be, List.length_cons,
      List.length_nil]
    simp
    omega
  rw [hsize, hbytes]
  rw [from_bytes]
  rw [read_u32_of_u32_be prn _ hprn]
  dsimp only
  rw [show MAX_LENGTH = 17 from rfl]
  rw [read_route_words_full fwd ret 17 _ hfwd hret (by omega)]
  dsimp only
  simp only [ne_eq, not_true_eq_false, and_false, if_false]
  have hWlen : (fwd ++ 0 :: (ret ++ [0])).length = fwd.length + ret.length + 2 := by
    simp
    omega
  rw [hWlen]
  have harith : 4 + (fwd.length + ret.length + 2) * 4 + 2 + payload.length
      - (4 + (fwd.length + ret.length + 2) * 4 + 2) = payload.length := by omega
  rw [harith]
  rw [if_neg (by omega : ¬(4 + (fwd.length + ret.length + 2) * 4 + 2 + payload.length
      < 4 + (fwd.length + ret.length + 2) * 4 + 2))]
  rw [if_neg (by simp [MTU] at hpay ⊢; omega : ¬(payload.length > MTU))]
  have hrest_len : (payload ++ u16_be (crc_finish (crc_bytes payload
      (List.foldl (fun c w => update_u32 w c) (update_u32 prn crc_new)
        (fwd ++ 0 :: (ret ++ [0])))))).length = payload.length + 2 := by
    simp [u16_be]
  rw [hrest_len]
  have hmin : payload.length ⊓ (MTU ⊓ (payload.length + 2)) = payload.length := by
    simp [MTU] at hpay ⊢
    omega
  rw [hmin]
  rw [List.take_left, List.drop_left]
  have hcrc_lt := crc_finish_lt (crc_bytes payload
    (List.foldl (fun c w => update_u32 w c) (update_u32 prn crc_new) (fwd ++ 0 :: (ret ++ [0]))))
  have hread16 := read_u16_of_u16_be (crc_finish (crc_bytes payload
    (List.foldl (fun c w => update_u32 w c) (update_u32 prn crc_new) (fwd ++ 0 :: (ret ++ [0])))))
    [] hcrc_lt
  rw [List.append_nil] at hread16
  rw [hread16]
  dsimp only
  rw [List.take_left]
  have hne : ¬¬(crc_finish (crc_bytes payload
      (List.foldl (fun c w => update_u32 w c) (update_u32 prn crc_new) (fwd ++ 0 :: (ret ++ [0]))))
      = crc_finish (crc_bytes payload
      (List.foldl (fun c w => update_u32 w c) (update_u32 prn crc_new)
        (fwd ++ 0 :: (ret ++ [0]))))) := fun hc => hc rfl
  rw [if_neg hne]
  dsimp only
  have hroute : (fwd ++ 0 :: (ret ++ [0])) ++ List.replicate (17 - (fwd.length + ret.length + 2)) 0
      = fwd ++ 0 :: (ret ++ List.replicate (k + 1) 0) := by
    have hk : 17 - (fwd.length + ret.length + 2) = k := by omega
    rw [hk]
    simp [List.append_assoc, List.replicate_succ]
  rw [hroute]


theorem from_to_bytes_full (prn : Nat) (fwd ret payload : List Nat)
    (hprn : prn < 4294967296)
    (hfwd : ∀ a ∈ fwd, a ≠ 0 ∧ a < 4294967296)
    (hret : ∀ a ∈ ret, a ≠ 0 ∧ a < 4294967296)
    (hlen : fwd.length + 1 + ret.length = 17)
    (hpay : payload.length ≤ MTU) :
    from_bytes (to_bytes ⟨prn, fwd ++ 0 :: ret⟩ (some payload))
        (to_bytes ⟨prn, fwd ++ 0 :: ret⟩ (some payload)).length
      = some (.ok (⟨prn, fwd ++ 0 :: ret⟩, payload.length,
          payload ++ List.replicate (MTU - payload.length) 0)) := by
  have hW : route_words (fwd ++ 0 :: ret) = fwd ++ 0 :: (ret ++ [0]) := by
    have h0 := route_words_eq fwd ret 0 (fun a ha => (hfwd a ha).1) (fun a ha => (hret a ha).1)
    simpa using h0
  have hbytes : to_bytes ⟨prn, fwd ++ 0 :: ret⟩ (some payload)
      = u32_be prn ++ ((fwd ++ 0 :: ret).flatMap u32_be ++ (u32_be 0 ++ (payload ++
          u16_be (crc_finish (crc_bytes payload ((fwd ++ 0 :: (ret ++ [0])).foldl
            (fun c w => update_u32 w c) (update_u32 prn crc_new))))))) := by
    rw [to_bytes]
    simp only [hW]
    have hsplit : (fwd ++ 0 :: (ret ++ [0])).flatMap u32_be
        = (fwd ++ 0 :: ret).flatMap u32_be ++ u32_be 0 := by
      have : fwd ++ 0 :: (ret ++ [0]) = (fwd ++ 0 :: ret) ++ [0] := by simp
      rw [this, List.flatMap_append]
      simp
    rw [hsplit]
    simp only [List.append_assoc]
  have hsize : (to_bytes ⟨prn, fwd ++ 0 :: ret⟩ (some payload)).length
      = 4 + 18 * 4 + 2 + payload.length := by
    rw [hbytes]
    simp only [List.length_append, length_flatMap_u32_be, u32_be, u16_be, List.length_cons,
      List.length_nil]
    simp
    omega
  rw [hsize, hbytes]
  rw [from_bytes]
  rw [read_u32_of_u32_be prn _ hprn]
  dsimp only
  rw [show MAX_LENGTH = 17 from rfl]
  rw [read_route_words_part fwd ret 17 _ hfwd hret (by simp at hlen ⊢; omega)]
  dsimp only
  have hWlen : (fwd ++ 0 :: ret).length = 17 := by
    simp
    omega
  rw [if_pos (by rw [hWlen]; exact ⟨rfl, by omega⟩)]
  rw [read_u32_of_u32_be 0 _ (by norm_num)]
  dsimp only
  rw [if_neg (by omega : ¬(0:Nat) ≠ 0)]
  rw [hWlen]
  have harith : 4 + 18 * 4 + 2 + payload.length - (4 + (17 + 1) * 4 + 2) = payload.length := by
    omega
  rw [harith]
  rw [if_neg (by omega : ¬(4 + 18 * 4 + 2 + payload.length < 4 + (17 + 1) * 4 + 2))]
  rw [if_neg (by simp [MTU] at hpay ⊢; omega : ¬(payload.length > MTU))]
  have hrest_len : (payload ++ u16_be (crc_finish (crc_bytes payload
      (List.foldl (fun c w => update_u32 w c) (update_u32 prn crc_new)
        (fwd ++ 0 :: (ret ++ [0])))))).length = payload.length + 2 := by
    simp [u16_be]
  rw [hrest_len]
  have hmin : payload.length ⊓ (MTU ⊓ (payload.length + 2)) = payload.length := by
    simp [MTU] at hpay ⊢
    omega
  rw [hmin]
  rw [List.take_left, List.drop_left]
  have hfold : (fwd ++ 0 :: ret) ++ [0] = fwd ++ 0 :: (ret ++ [0]) := by simp
  rw [hfold]
  have hcrc_lt := crc_finish_lt (crc_bytes payload
    (List.foldl (fun c w => update_u32 w c) (update_u32 prn crc_new) (fwd ++ 0 :: (ret ++ [0]))))
  have hread16 := read_u16_of_u16_be (crc_finish (crc_bytes payload
    (List.foldl (fun c w => update_u32 w c) (update_u32 prn crc_new) (fwd ++ 0 :: (ret ++ [0])))))
    [] hcrc_lt
  rw [List.append_nil] at hread16
  rw [hread16]
  dsimp only
  rw [List.take_left]
  have hne : ¬¬(crc_finish (crc_bytes payload
      (List.foldl (fun c w => update_u32 w c) (update_u32 prn crc_new) (fwd ++ 0 :: (ret ++ [0]))))
      = crc_finish (crc_bytes payload
      (List.foldl (fun c w => update_u32 w c) (update_u32 prn crc_new)
        (fwd ++ 0 :: (ret ++ [0]))))) := fun hc => hc rfl
  rw [if_neg hne]
  dsimp only
  rw [show (17:Nat) - 17 = 0 from rfl]
  simp


/-- C1: serializing a frame made of a non-empty forward path, the
separator, a return path and zero padding (17 words in all, forward and
return entries nonzero u32 values) together with a payload of at most
`MTU` bytes, then parsing the bytes at the serialized size, returns `Ok`
with the original frame, the original payload length, and a payload
buffer whose first `payload.length` bytes are exactly the original
payload. -/
theorem C1_frame_roundtrip (prn : Nat) (fwd ret payload : List Nat) (k : Nat)
    (hprn : prn < 4294967296)
    (hfwd_ne : fwd ≠ [])
    (hfwd : ∀ a ∈ fwd, a ≠ 0 ∧ a < 4294967296)
    (hret : ∀ a ∈ ret, a ≠ 0 ∧ a < 4294967296)
    (hlen : fwd.length + 1 + ret.length + k = 17)
    (hpay : payload.length ≤ MTU)
    (hbyte : ∀ b ∈ payload, b < 256) :
    from_bytes
        (to_bytes ⟨prn, fwd ++ 0 :: (ret ++ List.replicate k 0)⟩ (some payload))
        (to_bytes ⟨prn, fwd ++ 0 :: (ret ++ List.replicate k 0)⟩ (some payload)).length
      = some (.ok (⟨prn, fwd ++ 0 :: (ret ++ List.replicate k 0)⟩, payload.length,
          payload ++ List.replicate (MTU - payload.length) 0)) ∧
      (payload ++ List.replicate (MTU - payload.length) 0).take payload.length = payload := by
  refine ⟨?_, List.take_left payload _⟩
  cases k with
  | zero =>
    have h0 : List.replicate 0 (0:Nat) = [] := rfl
    rw [h0, List.append_nil]
    exact from_to_bytes_full prn fwd ret payload hprn hfwd hret (by omega) hpay
  | succ k =>
    exact from_to_bytes_pad prn fwd ret payload k hprn hfwd hret (by omega) hpay

/-- C1 witness: the round-trip at the frame with PRN 123456, forward path
`[10]`, return path `[20]`, 14 slots of padding, and payload
`[1, 2, 3, 4, 5]`. -/
theorem C1_frame_roundtrip_witness :
    from_bytes
        (to_bytes ⟨123456, [10] ++ 0 :: ([20] ++ List.replicate 14 0)⟩ (some [1, 2, 3, 4, 5]))
        (to_bytes ⟨123456, [10] ++ 0 :: ([20] ++ List.replicate 14 0)⟩
          (some [1, 2, 3, 4, 5])).length
      = some (.ok (⟨123456, [10] ++ 0 :: ([20] ++ List.replicate 14 0)⟩, 5,
          [1, 2, 3, 4, 5] ++ List.replicate (MTU - 5) 0)) ∧
      (([1, 2, 3, 4, 5] : List Nat) ++ List.replicate (MTU - 5) 0).take 5 = [1, 2, 3, 4, 5] := by
  have h := C1_frame_roundtrip 123456 [10] [20] [1, 2, 3, 4, 5] 14
    (by decide) (by decide) (by decide) (by decide) (by decide) (by decide) (by decide)
  simpa using h

/-! ### Claim C8 — congestion discard on tick.

The code computes `will_discard` per entry, against the byte total *at the
moment that entry is processed*; entries discarded earlier in the same
tick shrink the total, so a tick that *starts* above `CONGEST_CONTROL` can
retry later entries without discarding them.  The per-entry form of the
property does hold: an entry processed while the total still exceeds the
threshold is discarded right after its retry. -/


/-- Loop step: entry fires, has retry budget, no discard. -/
theorem tick_loop_retry_keep (elapsed : Nat) (q : Queue) (idx : Nat)
    (rands : List Nat) (oks : List Bool) (events : List Event)
    (p p2 : PendingPacket) (q2 : Queue)
    (h : idx < q.pending.length)
    (hp : q.pending.get ⟨idx, h⟩ = p)
    (hfire : p.next_send ≤ elapsed)
    (hrc : p.retry_count < RETRY_COUNT)
    (hcong : q.data.length ≤ CONGEST_CONTROL)
    (hok : oks.headD true = true)
    (hp2 : p2 = { p with retry_count := p.retry_count + 1,
                         next_send := rands.headD RETRY_DELAY_MS })
    (hq2 : q2 = { q with pending := q.pending.set idx p2 }) :
    tick_loop elapsed q idx rands oks events =
      tick_loop elapsed q2 (idx + 1) rands.tail oks.tail
        (events ++ [Event.retry p2.packet (packet_data q2 p2)
          (rands.headD RETRY_DELAY_MS)]) := by
  rw [tick_loop]
  rw [dif_pos h]
  simp only [hp]
  rw [if_pos hfire]
  rw [dif_pos hrc]
  rw [if_pos hok]
  rw [if_neg (by simp [RETRY_COUNT] at hrc ⊢; omega)]
  rw [← hp2, ← hq2]
  simp [hp2]

/-- Loop step: entry fires, has retry budget, congestion discard after the
retry. -/
theorem tick_loop_retry_discard (elapsed : Nat) (q : Queue) (idx : Nat)
    (rands : List Nat) (oks : List Bool) (events : List Event)
    (p p2 : PendingPacket) (q2 : Queue)
    (h : idx < q.pending.length)
    (hp : q.pending.get ⟨idx, h⟩ = p)
    (hfire : p.next_send ≤ elapsed)
    (hrc : p.retry_count < RETRY_COUNT)
    (hcong : CONGEST_CONTROL < q.data.length)
    (hok : oks.headD true = true)
    (hp2 : p2 = { p with retry_count := p.retry_count + 1,
                         next_send := rands.headD RETRY_DELAY_MS })
    (hq2 : q2 = { q with pending := q.pending.set idx p2 }) :
    tick_loop elapsed q idx rands oks events =
      tick_loop elapsed (discard_at q2 idx) idx rands.tail oks.tail
        (events ++ [Event.retry p2.packet (packet_data q2 p2) (rands.headD RETRY_DELAY_MS),
                    Event.expire p2.packet (packet_data q2 p2)]) := by
  rw [tick_loop]
  rw [dif_pos h]
  simp only [hp]
  rw [if_pos hfire]
  rw [dif_pos hrc]
  rw [if_pos hok]
  rw [if_pos (Or.inr hcong)]
  rw [← hp2, ← hq2]
  simp [hp2]

/-- Loop step: entry fires with its retry budget exhausted; discarded
without a retry. -/
theorem tick_loop_expire (elapsed : Nat) (q : Queue) (idx : Nat)
    (rands : List Nat) (oks : List Bool) (events : List Event)
    (p : PendingPacket)
    (h : idx < q.pending.length)
    (hp : q.pending.get ⟨idx, h⟩ = p)
    (hfire : p.next_send ≤ elapsed)
    (hrc : RETRY_COUNT ≤ p.retry_count) :
    tick_loop elapsed q idx rands oks events =
      tick_loop elapsed (discard_at q idx) idx rands oks
        (events ++ [Event.expire p.packet (packet_data q p)]) := by
  rw [tick_loop]
  rw [dif_pos h]
  simp only [hp]
  rw [if_pos hfire]
  rw [dif_neg (by omega)]

/-- Loop step: entry does not fire; its clock is advanced. -/
theorem tick_loop_wait (elapsed : Nat) (q : Queue) (idx : Nat)
    (rands : List Nat) (oks : List Bool) (events : List Event)
    (p : PendingPacket)
    (h : idx < q.pending.length)
    (hp : q.pending.get ⟨idx, h⟩ = p)
    (hfire : ¬p.next_send ≤ elapsed) :
    tick_loop elapsed q idx rands oks events =
      tick_loop elapsed
        { q with pending := q.pending.set idx { p with next_send := p.next_send - elapsed } }
        (idx + 1) rands oks events := by
  rw [tick_loop]
  rw [dif_pos h]
  simp only [hp]
  rw [if_neg hfire]

/-- Loop exit: the index has reached the end of the pending list. -/
theorem tick_loop_done (elapsed : Nat) (q : Queue) (idx : Nat)
    (rands : List Nat) (oks : List Bool) (events : List Event)
    (h : ¬idx < q.pending.length) :
    tick_loop elapsed q idx rands oks events = (q, events, true) := by
  rw [tick_loop]
  rw [dif_neg h]


/-- `enqueue` under the `BLOCK_SIZE` budget appends the entry and payload. -/
theorem enqueue_ok (q : Queue) (f : Frame) (p : List Nat)
    (h : q.data.length + p.length ≤ BLOCK_SIZE) :
    enqueue q f p = .ok (Queue.mk (q.pending ++
        [{ packet := f, next_send := RETRY_DELAY_MS, retry_count := 0,
           data_offset := q.data.length, data_size := p.length }])
      (q.data ++ p)) := by
  rw [enqueue, if_neg (by omega)]

/-- C8 counterexample: a queue holding a 35841-byte entry and a 1-byte
entry (35842 > CONGEST_CONTROL bytes at the start of the tick, both
reachable by `enqueue`) retries both entries in one tick but discards only
the first: after the first discard the total drops to 1 byte, so the
second entry's retry fires without the claimed same-tick discard and the
entry survives the tick. -/
theorem C8_counterexample :
    CONGEST_CONTROL < ((List.replicate 35841 1 ++ [1]) : List Nat).length ∧
      enqueue queue_new ⟨1, []⟩ (List.replicate 35841 1) =
        .ok (Queue.mk [{ packet := ⟨1, []⟩, next_send := 500, retry_count := 0,
                         data_offset := 0, data_size := 35841 }]
          (List.replicate 35841 1)) ∧
      enqueue (Queue.mk [{ packet := ⟨1, []⟩, next_send := 500, retry_count := 0,
                           data_offset := 0, data_size := 35841 }]
          (List.replicate 35841 1)) ⟨2, []⟩ [1] =
        .ok (Queue.mk [{ packet := ⟨1, []⟩, next_send := 500, retry_count := 0,
                         data_offset := 0, data_size := 35841 },
                       { packet := ⟨2, []⟩, next_send := 500, retry_count := 0,
                         data_offset := 35841, data_size := 1 }]
          (List.replicate 35841 1 ++ [1])) ∧
      tick (Queue.mk [{ packet := ⟨1, []⟩, next_send := 500, retry_count := 0,
                        data_offset := 0, data_size := 35841 },
                      { packet := ⟨2, []⟩, next_send := 500, retry_count := 0,
                        data_offset := 35841, data_size := 1 }]
          (List.replicate 35841 1 ++ [1])) 500 [600, 600] [] =
        (Queue.mk [{ packet := ⟨2, []⟩, next_send := 600, retry_count := 1,
                     data_offset := 0, data_size := 1 }] [1],
         [Event.retry ⟨1, []⟩ (List.replicate 35841 1) 600,
          Event.expire ⟨1, []⟩ (List.replicate 35841 1),
          Event.retry ⟨2, []⟩ [1] 600], true) := by
  have hrep : (List.replicate 35841 (1:Nat)).length = 35841 := List.length_replicate 35841 1
  have hdlen : ((List.replicate 35841 1 ++ [1]) : List Nat).length = 35842 := by
    rw [List.length_append, hrep]
    rfl
  refine ⟨by rw [hdlen]; norm_num [CONGEST_CONTROL], ?_, ?_, ?_⟩
  · rw [enqueue_ok queue_new ⟨1, []⟩ (List.replicate 35841 1)
      (by rw [hrep]; norm_num [queue_new, BLOCK_SIZE])]
    simp only [queue_new, List.nil_append, List.length_nil, hrep, RETRY_DELAY_MS]
  · have hq1 : (Queue.mk [{ packet := ⟨1, []⟩, next_send := 500, retry_count := 0, data_offset := 0, data_size := 35841 }] (List.replicate 35841 1)).data.length + ([1] : List Nat).length ≤ BLOCK_SIZE := by
      have hd : (Queue.mk [{ packet := ⟨1, []⟩, next_send := 500, retry_count := 0, data_offset := 0, data_size := 35841 }] (List.replicate 35841 1)).data = List.replicate 35841 1 := rfl
      rw [hd, hrep]
      norm_num [BLOCK_SIZE]
    rw [enqueue_ok _ ⟨2, []⟩ [1] hq1]
    have hd2 : (Queue.mk [{ packet := ⟨1, []⟩, next_send := 500, retry_count := 0, data_offset := 0, data_size := 35841 }] (List.replicate 35841 1)).data.length = 35841 := by
      have hd : (Queue.mk [{ packet := ⟨1, []⟩, next_send := 500, retry_count := 0, data_offset := 0, data_size := 35841 }] (List.replicate 35841 1)).data = List.replicate 35841 1 := rfl
      rw [hd, hrep]
    rw [hd2]
    rfl
  · rw [tick]
    have hcong0 : CONGEST_CONTROL < (Queue.mk [{ packet := ⟨1, []⟩, next_send := 500, retry_count := 0, data_offset := 0, data_size := 35841 }, { packet := ⟨2, []⟩, next_send := 500, retry_count := 0, data_offset := 35841, data_size := 1 }] (List.replicate 35841 1 ++ [1])).data.length := by
      have hd : (Queue.mk [{ packet := ⟨1, []⟩, next_send := 500, retry_count := 0, data_offset := 0, data_size := 35841 }, { packet := ⟨2, []⟩, next_send := 500, retry_count := 0, data_offset := 35841, data_size := 1 }] (List.replicate 35841 1 ++ [1])).data = List.replicate 35841 1 ++ [1] := rfl
      rw [hd, hdlen]
      norm_num [CONGEST_CONTROL]
    rw [tick_loop_retry_discard 500 (Queue.mk [{ packet := ⟨1, []⟩, next_send := 500, retry_count := 0, data_offset := 0, data_size := 35841 }, { packet := ⟨2, []⟩, next_send := 500, retry_count := 0, data_offset := 35841, data_size := 1 }] (List.replicate 35841 1 ++ [1])) 0 [600, 600] [] [] { packet := ⟨1, []⟩, next_send := 500, retry_count := 0, data_offset := 0, data_size := 35841 } { packet := ⟨1, []⟩, next_send := 600, retry_count := 1, data_offset := 0, data_size := 35841 } (Queue.mk [{ packet := ⟨1, []⟩, next_send := 600, retry_count := 1, data_offset := 0, data_size := 35841 }, { packet := ⟨2, []⟩, next_send := 500, retry_count := 0, data_offset := 35841, data_size := 1 }] (List.replicate 35841 1 ++ [1])) (by exact Nat.succ_pos 1) rfl (by norm_num) (by norm_num [RETRY_COUNT]) hcong0 rfl rfl rfl]
    have hpd1 : packet_data (Queue.mk [{ packet := ⟨1, []⟩, next_send := 600, retry_count := 1, data_offset := 0, data_size := 35841 }, { packet := ⟨2, []⟩, next_send := 500, retry_count := 0, data_offset := 35841, data_size := 1 }] (List.replicate 35841 1 ++ [1])) { packet := ⟨1, []⟩, next_send := 600, retry_count := 1, data_offset := 0, data_size := 35841 } = List.replicate 35841 1 := by
      rw [packet_data]
      have hd : (Queue.mk [{ packet := ⟨1, []⟩, next_send := 600, retry_count := 1, data_offset := 0, data_size := 35841 }, { packet := ⟨2, []⟩, next_send := 500, retry_count := 0, data_offset := 35841, data_size := 1 }] (List.replicate 35841 1 ++ [1])).data = List.replicate 35841 1 ++ [1] := rfl
      rw [hd]
      have hoff : ({ packet := ⟨1, []⟩, next_send := 600, retry_count := 1, data_offset := 0, data_size := 35841 } : PendingPacket).data_offset = 0 := rfl
      have hsz : ({ packet := ⟨1, []⟩, next_send := 600, retry_count := 1, data_offset := 0, data_size := 35841 } : PendingPacket).data_size = 35841 := rfl
      rw [hoff, hsz, List.drop_zero, List.take_left' hrep]
    rw [hpd1]
    have hdisc : discard_at (Queue.mk [{ packet := ⟨1, []⟩, next_send := 600, retry_count := 1, data_offset := 0, data_size := 35841 }, { packet := ⟨2, []⟩, next_send := 500, retry_count := 0, data_offset := 35841, data_size := 1 }] (List.replicate 35841 1 ++ [1])) 0 = Queue.mk [{ packet := ⟨2, []⟩, next_send := 500, retry_count := 0, data_offset := 0, data_size := 1 }] [1] := by
      rw [discard_at]
      have hg : (Queue.mk [{ packet := ⟨1, []⟩, next_send := 600, retry_count := 1, data_offset := 0, data_size := 35841 }, { packet := ⟨2, []⟩, next_send := 500, retry_count := 0, data_offset := 35841, data_size := 1 }] (List.replicate 35841 1 ++ [1])).pending.get? 0 = some { packet := ⟨1, []⟩, next_send := 600, retry_count := 1, data_offset := 0, data_size := 35841 } := rfl
      rw [hg]
      have hdata : (Queue.mk [{ packet := ⟨1, []⟩, next_send := 600, retry_count := 1, data_offset := 0, data_size := 35841 }, { packet := ⟨2, []⟩, next_send := 500, retry_count := 0, data_offset := 35841, data_size := 1 }] (List.replicate 35841 1 ++ [1])).data = List.replicate 35841 1 ++ [1] := rfl
      simp only [hdata]
      rw [List.take_zero]
      rw [List.drop_left' (by rw [hrep] : (List.replicate 35841 (1:Nat)).length = 0 + 35841)]
      rfl
    rw [hdisc]
    simp only [List.tail_cons, List.tail_nil, List.nil_append, List.headD_cons]
    rw [tick_loop_retry_keep 500 (Queue.mk [{ packet := ⟨2, []⟩, next_send := 500, retry_count := 0, data_offset := 0, data_size := 1 }] [1]) 0 [600] [] [Event.retry ⟨1, []⟩ (List.replicate 35841 1) 600, Event.expire ⟨1, []⟩ (List.replicate 35841 1)] { packet := ⟨2, []⟩, next_send := 500, retry_count := 0, data_offset := 0, data_size := 1 } { packet := ⟨2, []⟩, next_send := 600, retry_count := 1, data_offset := 0, data_size := 1 } (Queue.mk [{ packet := ⟨2, []⟩, next_send := 600, retry_count := 1, data_offset := 0, data_size := 1 }] [1]) (by norm_num) rfl (by norm_num) (by norm_num [RETRY_COUNT]) (by norm_num [CONGEST_CONTROL]) rfl rfl rfl]
    rw [tick_loop_done 500 (Queue.mk [{ packet := ⟨2, []⟩, next_send := 600, retry_count := 1, data_offset := 0, data_size := 1 }] [1]) 1 [600].tail [].tail _ (by norm_num)]
    rfl


/-- C8 (amended): during a `tick`, every entry that fires (its
`next_send` has elapsed) at a moment when the queued bytes held in the
shared payload vector still exceed `CONGEST_CONTROL` is discarded in that
same tick, after its retry transmission: an entry out of retry budget is
expired outright, and an entry with budget is retried first (consuming one
backoff value, with the retry callback returning Ok) and then discarded,
the discard callback running after the retry callback. -/
theorem C8_congestion_discard (elapsed : Nat) (q : Queue) (idx : Nat)
    (rands : List Nat) (oks : List Bool) (events : List Event)
    (p p2 : PendingPacket) (q2 : Queue)
    (h : idx < q.pending.length)
    (hp : q.pending.get ⟨idx, h⟩ = p)
    (hfire : p.next_send ≤ elapsed)
    (hcong : CONGEST_CONTROL < q.data.length)
    (hok : oks.headD true = true)
    (hp2 : p2 = { p with retry_count := p.retry_count + 1,
                         next_send := rands.headD RETRY_DELAY_MS })
    (hq2 : q2 = { q with pending := q.pending.set idx p2 }) :
    (RETRY_COUNT ≤ p.retry_count →
      tick_loop elapsed q idx rands oks events =
        tick_loop elapsed (discard_at q idx) idx rands oks
          (events ++ [Event.expire p.packet (packet_data q p)])) ∧
    (p.retry_count < RETRY_COUNT →
      tick_loop elapsed q idx rands oks events =
        tick_loop elapsed (discard_at q2 idx) idx rands.tail oks.tail
          (events ++ [Event.retry p2.packet (packet_data q2 p2) (rands.headD RETRY_DELAY_MS),
                      Event.expire p2.packet (packet_data q2 p2)])) :=
  ⟨fun hrc => tick_loop_expire elapsed q idx rands oks events p h hp hfire hrc,
   fun hrc => tick_loop_retry_discard elapsed q idx rands oks events p p2 q2
     h hp hfire hrc hcong hok hp2 hq2⟩

/-- C8 witness: the amended per-entry discard at a single 35841-byte entry
with its clock expired, in a queue over the congestion threshold. -/
theorem C8_congestion_discard_witness :
    (RETRY_COUNT ≤ (0:Nat) →
      tick_loop 100 (Queue.mk [{ packet := ⟨9, []⟩, next_send := 100, retry_count := 0, data_offset := 0, data_size := 35841 }] (List.replicate 35841 7)) 0 [700] [true] [] =
        tick_loop 100 (discard_at (Queue.mk [{ packet := ⟨9, []⟩, next_send := 100, retry_count := 0, data_offset := 0, data_size := 35841 }] (List.replicate 35841 7)) 0) 0 [700] [true]
          ([] ++ [Event.expire (⟨9, []⟩ : Frame) (packet_data (Queue.mk [{ packet := ⟨9, []⟩, next_send := 100, retry_count := 0, data_offset := 0, data_size := 35841 }] (List.replicate 35841 7)) { packet := ⟨9, []⟩, next_send := 100, retry_count := 0, data_offset := 0, data_size := 35841 })])) ∧
    ((0:Nat) < RETRY_COUNT →
      tick_loop 100 (Queue.mk [{ packet := ⟨9, []⟩, next_send := 100, retry_count := 0, data_offset := 0, data_size := 35841 }] (List.replicate 35841 7)) 0 [700] [true] [] =
        tick_loop 100 (discard_at (Queue.mk [{ packet := ⟨9, []⟩, next_send := 700, retry_count := 1, data_offset := 0, data_size := 35841 }] (List.replicate 35841 7)) 0) 0 ([700] : List Nat).tail ([true] : List Bool).tail
          ([] ++ [Event.retry (⟨9, []⟩ : Frame) (packet_data (Queue.mk [{ packet := ⟨9, []⟩, next_send := 700, retry_count := 1, data_offset := 0, data_size := 35841 }] (List.replicate 35841 7)) { packet := ⟨9, []⟩, next_send := 700, retry_count := 1, data_offset := 0, data_size := 35841 }) (([700] : List Nat).headD RETRY_DELAY_MS),
                  Event.expire (⟨9, []⟩ : Frame) (packet_data (Queue.mk [{ packet := ⟨9, []⟩, next_send := 700, retry_count := 1, data_offset := 0, data_size := 35841 }] (List.replicate 35841 7)) { packet := ⟨9, []⟩, next_send := 700, retry_count := 1, data_offset := 0, data_size := 35841 })])) :=
  C8_congestion_discard 100
    (Queue.mk [{ packet := ⟨9, []⟩, next_send := 100, retry_count := 0, data_offset := 0, data_size := 35841 }] (List.replicate 35841 7)) 0 [700] [true] []
    { packet := ⟨9, []⟩, next_send := 100, retry_count := 0, data_offset := 0, data_size := 35841 }
    { packet := ⟨9, []⟩, next_send := 700, retry_count := 1, data_offset := 0, data_size := 35841 }
    (Queue.mk [{ packet := ⟨9, []⟩, next_send := 700, retry_count := 1, data_offset := 0, data_size := 35841 }] (List.replicate 35841 7))
    (by exact Nat.succ_pos 0) rfl (by norm_num)
    (by rw [show (Queue.mk [{ packet := ⟨9, []⟩, next_send := 100, retry_count := 0, data_offset := 0, data_size := 35841 }] (List.replicate 35841 7)).data = List.replicate 35841 7 from rfl, List.length_replicate]; norm_num [CONGEST_CONTROL])
    rfl rfl rfl


/-! ### Claim C3 — retry counting for a single never-acked entry.

`tick`'s randomized backoff and retry-callback results are oracle lists;
"retry callback always returns Ok" is the empty `oks` oracle (`headD true`).
A sequence of `tick` calls is a list of `(elapsed, rands)` pairs; "the
elapsed times eventually exceed each scheduled delay" is formalized by its
observable consequence, the pending list being empty at the end of the run
(a never-acked, never-congested entry leaves the queue only by expiry). -/

def run_ticks : Queue → List (Nat × List Nat) → List Event → Queue × List Event
  | q, [], acc => (q, acc)
  | q, (e, rands) :: rest, acc =>
      run_ticks (tick q e rands []).1 rest (acc ++ (tick q e rands []).2.1)

def count_retry (evs : List Event) : Nat :=
  evs.countP fun ev => match ev with
    | .retry _ _ _ => true
    | .expire _ _ => false

def count_expire (evs : List Event) : Nat :=
  evs.countP fun ev => match ev with
    | .retry _ _ _ => false
    | .expire _ _ => true

theorem count_retry_append (a b : List Event) :
    count_retry (a ++ b) = count_retry a + count_retry b := by
  simp [count_retry]

theorem count_expire_append (a b : List Event) :
    count_expire (a ++ b) = count_expire a + count_expire b := by
  simp [count_expire]

theorem count_retry_one (f : Frame) (d : List Nat) (ns : Nat) :
    count_retry [Event.retry f d ns] = 1 := by
  simp [count_retry]

theorem count_retry_exp (f : Frame) (d : List Nat) :
    count_retry [Event.expire f d] = 0 := by
  simp [count_retry]

theorem count_expire_one (f : Frame) (d : List Nat) :
    count_expire [Event.expire f d] = 1 := by
  simp [count_expire]

theorem count_expire_ret (f : Frame) (d : List Nat) (ns : Nat) :
    count_expire [Event.retry f d ns] = 0 := by
  simp [count_expire]

/-- A tick on a single-entry queue whose clock has not elapsed only
advances the clock. -/
theorem tick_single_wait (e : Nat) (rands : List Nat) (p : PendingPacket)
    (d : List Nat) (hfire : ¬p.next_send ≤ e) :
    tick (Queue.mk [p] d) e rands [] =
      (Queue.mk [{ p with next_send := p.next_send - e }] d, [], true) := by
  have h1 := tick_loop_wait e (Queue.mk [p] d) 0 rands [] [] p (by norm_num) rfl hfire
  rw [tick, h1]
  exact tick_loop_done e _ 1 rands [] [] (by norm_num)

/-- A tick on a single fired entry with retry budget, under the congestion
threshold: one retry event, the count bumped, the new delay drawn. -/
theorem tick_single_retry (e : Nat) (rands : List Nat) (p : PendingPacket)
    (d : List Nat) (hfire : p.next_send ≤ e) (hrc : p.retry_count < RETRY_COUNT)
    (hcong : d.length ≤ CONGEST_CONTROL) :
    tick (Queue.mk [p] d) e rands [] =
      (Queue.mk [{ p with retry_count := p.retry_count + 1,
                          next_send := rands.headD RETRY_DELAY_MS }] d,
       [Event.retry p.packet
          (packet_data
            (Queue.mk [{ p with retry_count := p.retry_count + 1,
                                next_send := rands.headD RETRY_DELAY_MS }] d)
            { p with retry_count := p.retry_count + 1,
                     next_send := rands.headD RETRY_DELAY_MS })
          (rands.headD RETRY_DELAY_MS)], true) := by
  have h1 := tick_loop_retry_keep e (Queue.mk [p] d) 0 rands [] [] p
    { p with retry_count := p.retry_count + 1, next_send := rands.headD RETRY_DELAY_MS }
    (Queue.mk [{ p with retry_count := p.retry_count + 1,
                        next_send := rands.headD RETRY_DELAY_MS }] d)
    (by norm_num) rfl hfire hrc hcong rfl rfl rfl
  rw [tick, h1]
  exact tick_loop_done e _ 1 rands.tail [] _ (by norm_num)

/-- A tick on a single fired entry holding the whole payload vector, out
of retry budget: one expire event and an empty queue. -/
theorem tick_single_expire (e : Nat) (rands : List Nat) (p : PendingPacket)
    (d : List Nat) (hfire : p.next_send ≤ e) (hrc : RETRY_COUNT ≤ p.retry_count)
    (hoff : p.data_offset = 0) (hsz : p.data_size = d.length) :
    tick (Queue.mk [p] d) e rands [] =
      (Queue.mk [] [], [Event.expire p.packet (packet_data (Queue.mk [p] d) p)], true) := by
  have h1 := tick_loop_expire e (Queue.mk [p] d) 0 rands [] [] p (by norm_num) rfl hfire hrc
  have hd : discard_at (Queue.mk [p] d) 0 = Queue.mk [] [] := by
    simp [discard_at, hoff, hsz, List.drop_eq_nil_of_le]
  rw [tick, h1, hd]
  exact tick_loop_done e (Queue.mk [] []) 0 rands [] _ (by norm_num)

/-- A tick on the empty queue does nothing. -/
theorem tick_empty (e : Nat) (rands : List Nat) :
    tick (Queue.mk [] []) e rands [] = (Queue.mk [] [], [], true) :=
  tick_loop_done e (Queue.mk [] []) 0 rands [] [] (by norm_num)

/-- Run invariant for one never-acked entry carrying the whole payload
vector: either the entry is still pending with `retry_count` retries
recorded and no expiry, or it has expired after exactly `RETRY_COUNT`
retries and the queue is empty. -/
def single_inv (f : Frame) (n : Nat) (st : Queue × List Event) : Prop :=
  (∃ ns rc, rc ≤ RETRY_COUNT ∧
      st.1.pending = [{ packet := f, next_send := ns, retry_count := rc,
                        data_offset := 0, data_size := n }] ∧
      st.1.data.length = n ∧
      count_retry st.2 = rc ∧ count_expire st.2 = 0) ∨
  (st.1 = Queue.mk [] [] ∧
      count_retry st.2 = RETRY_COUNT ∧ count_expire st.2 = 1)

theorem tick_single_inv (f : Frame) (n : Nat) (hn : n ≤ CONGEST_CONTROL)
    (q : Queue) (acc : List Event) (e : Nat) (rands : List Nat)
    (h : single_inv f n (q, acc)) :
    single_inv f n ((tick q e rands []).1, acc ++ (tick q e rands []).2.1) := by
  obtain ⟨pd, dt⟩ := q
  rcases h with ⟨ns, rc, hrc, hpend, hlen, hcr, hce⟩ | ⟨hq, hcr, hce⟩
  · have hpd : pd = [{ packet := f, next_send := ns, retry_count := rc,
                       data_offset := 0, data_size := n }] := hpend
    have hlen1 : dt.length = n := hlen
    subst hpd
    by_cases hfire : ns ≤ e
    · by_cases hrc4 : rc < RETRY_COUNT
      · rw [tick_single_retry e rands _ dt hfire hrc4 (by omega)]
        left
        refine ⟨rands.headD RETRY_DELAY_MS, rc + 1, by omega, rfl, hlen1, ?_, ?_⟩
        · rw [count_retry_append, count_retry_one]
          have hcr1 : count_retry acc = rc := hcr
          omega
        · rw [count_expire_append, count_expire_ret]
          have hce1 : count_expire acc = 0 := hce
          omega
      · rw [tick_single_expire e rands _ dt hfire (by exact Nat.le_of_not_lt hrc4) rfl hlen1.symm]
        right
        refine ⟨rfl, ?_, ?_⟩
        · rw [count_retry_append, count_retry_exp]
          have hcr1 : count_retry acc = rc := hcr
          omega
        · rw [count_expire_append, count_expire_one]
          have hce1 : count_expire acc = 0 := hce
          omega
    · rw [tick_single_wait e rands _ dt hfire]
      left
      exact ⟨ns - e, rc, hrc, rfl, hlen1, by rw [List.append_nil]; exact hcr,
             by rw [List.append_nil]; exact hce⟩
  · have hq1 : Queue.mk pd dt = Queue.mk [] [] := hq
    rw [hq1, tick_empty]
    right
    exact ⟨rfl, by rw [List.append_nil]; exact hcr, by rw [List.append_nil]; exact hce⟩

theorem run_ticks_inv (f : Frame) (n : Nat) (hn : n ≤ CONGEST_CONTROL)
    (ticks : List (Nat × List Nat)) :
    ∀ (q : Queue) (acc : List Event), single_inv f n (q, acc) →
      single_inv f n (run_ticks q ticks acc) := by
  induction ticks with
  | nil => intro q acc h; exact h
  | cons t rest ih =>
      intro q acc h
      obtain ⟨e, rands⟩ := t
      exact ih _ _ (tick_single_inv f n hn q acc e rands h)


/-- C3: a single frame enqueued on a fresh queue and never acked, with
its payload within the congestion threshold and the retry callback always
returning Ok (empty `oks` oracle), is delivered to the retry callback
exactly `RETRY_COUNT` times and to the discard callback exactly once
across any sequence of `tick` calls that eventually drains it (the
pending list is empty at the end of the run), for every choice of the
randomized backoff values; afterwards the queue is empty. -/
theorem C3_retry_counting (f : Frame) (payload : List Nat)
    (hn : payload.length ≤ CONGEST_CONTROL)
    (q0 : Queue) (henq : enqueue queue_new f payload = .ok q0)
    (ticks : List (Nat × List Nat)) (qf : Queue) (evs : List Event)
    (hrun : run_ticks q0 ticks [] = (qf, evs))
    (hdone : qf.pending = []) :
    count_retry evs = RETRY_COUNT ∧ count_expire evs = 1 ∧ qf = queue_new := by
  have hq0 : q0 = Queue.mk [{ packet := f, next_send := RETRY_DELAY_MS, retry_count := 0,
                              data_offset := 0, data_size := payload.length }] payload := by
    rw [enqueue_ok queue_new f payload
      (by norm_num [queue_new, BLOCK_SIZE, CONGEST_CONTROL] at hn ⊢; omega)] at henq
    simp only [Except.ok.injEq] at henq
    rw [← henq]
    simp [queue_new]
  subst hq0
  have hinv := run_ticks_inv f payload.length hn ticks
    (Queue.mk [{ packet := f, next_send := RETRY_DELAY_MS, retry_count := 0,
                 data_offset := 0, data_size := payload.length }] payload) []
    (Or.inl ⟨RETRY_DELAY_MS, 0, by norm_num, rfl, rfl, rfl, rfl⟩)
  rw [hrun] at hinv
  rcases hinv with ⟨ns, rc, _, hpend, _, _, _⟩ | ⟨hq, hcr, hce⟩
  · have hpend1 : qf.pending = [{ packet := f, next_send := ns, retry_count := rc,
                                  data_offset := 0, data_size := payload.length }] := hpend
    rw [hdone] at hpend1
    exact absurd hpend1 (by simp)
  · have hq1 : qf = Queue.mk [] [] := hq
    have hcr1 : count_retry evs = RETRY_COUNT := hcr
    have hce1 : count_expire evs = 1 := hce
    exact ⟨hcr1, hce1, by rw [hq1]; rfl⟩

/-- C3 witness: frame 7 with payload `[3]`, five ticks of 500 ms. -/
theorem C3_retry_counting_witness :
    count_retry [Event.retry ⟨7, []⟩ [3] 500, Event.retry ⟨7, []⟩ [3] 500,
                 Event.retry ⟨7, []⟩ [3] 500, Event.retry ⟨7, []⟩ [3] 500,
                 Event.expire ⟨7, []⟩ [3]] = RETRY_COUNT ∧
    count_expire [Event.retry ⟨7, []⟩ [3] 500, Event.retry ⟨7, []⟩ [3] 500,
                  Event.retry ⟨7, []⟩ [3] 500, Event.retry ⟨7, []⟩ [3] 500,
                  Event.expire ⟨7, []⟩ [3]] = 1 ∧
    (Queue.mk [] []) = queue_new :=
  C3_retry_counting ⟨7, []⟩ [3] (by norm_num [CONGEST_CONTROL])
    (Queue.mk [{ packet := ⟨7, []⟩, next_send := 500, retry_count := 0,
                 data_offset := 0, data_size := 1 }] [3])
    rfl
    [(500, [500]), (500, [500]), (500, [500]), (500, [500]), (500, [])]
    (Queue.mk [] [])
    [Event.retry ⟨7, []⟩ [3] 500, Event.retry ⟨7, []⟩ [3] 500,
     Event.retry ⟨7, []⟩ [3] 500, Event.retry ⟨7, []⟩ [3] 500,
     Event.expire ⟨7, []⟩ [3]]
    (by simp [run_ticks, tick, tick_loop, discard_at, packet_data, queue_new,
              RETRY_COUNT, RETRY_DELAY_MS, CONGEST_CONTROL])
    rfl


/-! ### Claim C10 — layout invariant of the transmit queue.

The pending entries slice the shared payload vector into consecutive
ranges: each entry's `data_offset` is the sum of the sizes of the entries
before it, and the vector's length is the total size, within
`BLOCK_SIZE`.  This is preserved by `enqueue`, `ack_recv` and `tick`, and
yields the claim's pairwise-disjoint, offset-ordered exact cover. -/

def sizes_sum (l : List PendingPacket) : Nat := (l.map fun p => p.data_size).sum

/-- The entries' offsets are the partial sums of their sizes, from `b`. -/
def offsets_from : Nat → List PendingPacket → Prop
  | _, [] => True
  | b, p :: rest => p.data_offset = b ∧ offsets_from (b + p.data_size) rest

def queue_wf (q : Queue) : Prop :=
  offsets_from 0 q.pending ∧ q.data.length = sizes_sum q.pending ∧
    q.data.length ≤ BLOCK_SIZE

theorem sizes_sum_nil : sizes_sum [] = 0 := rfl

theorem sizes_sum_cons (p : PendingPacket) (l : List PendingPacket) :
    sizes_sum (p :: l) = p.data_size + sizes_sum l := by
  simp [sizes_sum]

theorem sizes_sum_append (a b : List PendingPacket) :
    sizes_sum (a ++ b) = sizes_sum a + sizes_sum b := by
  simp [sizes_sum]

theorem offsets_from_ge (l : List PendingPacket) :
    ∀ b, offsets_from b l → ∀ x, x ∈ l → b ≤ x.data_offset := by
  induction l with
  | nil => intro b _ x hx; cases hx
  | cons p tl ih =>
      intro b h x hx
      rcases List.mem_cons.mp hx with hx | hx
      · rw [hx, h.1]
      · exact le_trans (Nat.le_add_right b p.data_size) (ih (b + p.data_size) h.2 x hx)

theorem offsets_from_le_sum (l : List PendingPacket) :
    ∀ b, offsets_from b l → ∀ x, x ∈ l →
      x.data_offset + x.data_size ≤ b + sizes_sum l := by
  induction l with
  | nil => intro b _ x hx; cases hx
  | cons p tl ih =>
      intro b h x hx
      rw [sizes_sum_cons]
      rcases List.mem_cons.mp hx with hx | hx
      · subst hx
        have h1 : x.data_offset = b := h.1
        omega
      · have := ih (b + p.data_size) h.2 x hx
        omega

theorem offsets_from_pairwise (l : List PendingPacket) :
    ∀ b, offsets_from b l →
      l.Pairwise (fun x y => x.data_offset + x.data_size ≤ y.data_offset) := by
  induction l with
  | nil => intro b _; exact List.Pairwise.nil
  | cons p tl ih =>
      intro b h
      refine List.Pairwise.cons ?_ (ih (b + p.data_size) h.2)
      intro y hy
      have hge := offsets_from_ge tl (b + p.data_size) h.2 y hy
      have h1 : p.data_offset = b := h.1
      omega

theorem offsets_from_get (l : List PendingPacket) :
    ∀ b, offsets_from b l → ∀ i (hi : i < l.length),
      (l.get ⟨i, hi⟩).data_offset = b + sizes_sum (l.take i) := by
  induction l with
  | nil => intro b _ i hi; exact absurd hi (by simp)
  | cons p tl ih =>
      intro b h i hi
      cases i with
      | zero => simpa [sizes_sum] using h.1
      | succ i =>
          have hrec := ih (b + p.data_size) h.2 i (by simpa using hi)
          rw [show (p :: tl).take (i + 1) = p :: tl.take i from rfl, sizes_sum_cons]
          rw [show (p :: tl).get ⟨i + 1, hi⟩ = tl.get ⟨i, by simpa using hi⟩ from rfl]
          omega

theorem sizes_sum_take_mono (l : List PendingPacket) (i j : Nat) (h : i ≤ j) :
    sizes_sum (l.take i) ≤ sizes_sum (l.take j) := by
  conv_rhs => rw [← List.take_append_drop i (l.take j)]
  rw [sizes_sum_append, List.take_take, Nat.min_eq_left h]
  omega

theorem offsets_from_set (l : List PendingPacket) :
    ∀ b i (p2 : PendingPacket) (h : i < l.length),
      p2.data_offset = (l.get ⟨i, h⟩).data_offset →
      p2.data_size = (l.get ⟨i, h⟩).data_size →
      offsets_from b l → offsets_from b (l.set i p2) := by
  induction l with
  | nil => intro b i p2 h _ _ _; exact absurd h (by simp)
  | cons p tl ih =>
      intro b i p2 h hoff hsz hl
      cases i with
      | zero =>
          refine ⟨?_, ?_⟩
          · rw [hoff]; exact hl.1
          · rw [hsz]; exact hl.2
      | succ i =>
          refine ⟨hl.1, ?_⟩
          exact ih (b + p.data_size) i p2 (by simpa using h) hoff hsz hl.2

theorem sizes_sum_set (l : List PendingPacket) :
    ∀ i (p2 : PendingPacket) (h : i < l.length),
      p2.data_size = (l.get ⟨i, h⟩).data_size →
      sizes_sum (l.set i p2) = sizes_sum l := by
  induction l with
  | nil => intro i p2 h _; exact absurd h (by simp)
  | cons p tl ih =>
      intro i p2 h hsz
      cases i with
      | zero =>
          rw [show (p :: tl).set 0 p2 = p2 :: tl from rfl, sizes_sum_cons,
              sizes_sum_cons, hsz]
          exact rfl
      | succ i =>
          rw [show (p :: tl).set (i + 1) p2 = p :: tl.set i p2 from rfl,
              sizes_sum_cons, sizes_sum_cons, ih i p2 (by simpa using h) hsz]

theorem offsets_from_append_single (l : List PendingPacket) :
    ∀ b (e : PendingPacket), offsets_from b l → e.data_offset = b + sizes_sum l →
      offsets_from b (l ++ [e]) := by
  induction l with
  | nil =>
      intro b e _ he
      refine ⟨?_, trivial⟩
      rw [he, sizes_sum_nil]
      omega
  | cons p tl ih =>
      intro b e h he
      refine ⟨h.1, ih (b + p.data_size) e h.2 ?_⟩
      rw [he, sizes_sum_cons]
      omega

/-- The per-entry offset adjustment `Queue::discard` applies to survivors. -/
def shift_off (s sz : Nat) (packet : PendingPacket) : PendingPacket :=
  if packet.data_offset ≥ s + sz then
    { packet with data_offset := packet.data_offset - (s + sz - s) }
  else packet

theorem discard_at_eq (q : Queue) (idx : Nat) (pk : PendingPacket)
    (hg : q.pending.get? idx = some pk) :
    discard_at q idx = Queue.mk
      ((q.pending.eraseIdx idx).map (shift_off pk.data_offset pk.data_size))
      (q.data.take pk.data_offset ++ q.data.drop (pk.data_offset + pk.data_size)) := by
  rw [discard_at, hg]
  exact rfl

theorem shift_off_size (s sz : Nat) (p : PendingPacket) :
    (shift_off s sz p).data_size = p.data_size := by
  rw [shift_off]; split <;> rfl

theorem sizes_sum_map_shift (s sz : Nat) (l : List PendingPacket) :
    sizes_sum (l.map (shift_off s sz)) = sizes_sum l := by
  induction l with
  | nil => rfl
  | cons p tl ih =>
      rw [List.map_cons, sizes_sum_cons, sizes_sum_cons, ih, shift_off_size]

theorem offsets_from_map_shift (l : List PendingPacket) :
    ∀ b s sz, s + sz ≤ b → offsets_from b l →
      offsets_from (b - sz) (l.map (shift_off s sz)) := by
  induction l with
  | nil => intro b s sz _ _; trivial
  | cons p tl ih =>
      intro b s sz hb h
      obtain ⟨h1, h2⟩ := h
      refine ⟨?_, ?_⟩
      · rw [shift_off, if_pos (show p.data_offset ≥ s + sz by omega)]
        show p.data_offset - (s + sz - s) = b - sz
        omega
      · rw [shift_off_size]
        have heq : b - sz + p.data_size = b + p.data_size - sz := by omega
        rw [heq]
        exact ih (b + p.data_size) s sz (by omega) h2

theorem offsets_from_erase (l1 : List PendingPacket) :
    ∀ b (pk : PendingPacket) (l2 : List PendingPacket),
      offsets_from b (l1 ++ pk :: l2) →
      offsets_from b ((l1 ++ l2).map (shift_off pk.data_offset pk.data_size)) := by
  induction l1 with
  | nil =>
      intro b pk l2 h
      obtain ⟨h1, h2⟩ := h
      have hshift := offsets_from_map_shift l2 (b + pk.data_size)
        pk.data_offset pk.data_size (by omega) h2
      simpa using hshift
  | cons p tl ih =>
      intro b pk l2 h
      obtain ⟨h1, h2⟩ := h
      have hge := offsets_from_ge (tl ++ pk :: l2) (b + p.data_size) h2 pk (by simp)
      refine ⟨?_, ?_⟩
      · rw [shift_off]
        split
        · rename_i hc
          show p.data_offset - (pk.data_offset + pk.data_size - pk.data_offset) = b
          omega
        · exact h1
      · rw [shift_off_size]
        exact ih (b + p.data_size) pk l2 h2

theorem discard_at_wf (q : Queue) (idx : Nat) (hwf : queue_wf q) :
    queue_wf (discard_at q idx) := by
  obtain ⟨hoff, hlen, hblk⟩ := hwf
  rcases hg : q.pending.get? idx with _ | pk
  · rw [discard_at, hg]
    exact ⟨hoff, hlen, hblk⟩
  · obtain ⟨h, hget⟩ := List.get?_eq_some.mp hg
    have hgetElem : q.pending[idx] = pk := by simpa using hget
    have hsplit : q.pending = q.pending.take idx ++ pk :: q.pending.drop (idx + 1) := by
      conv_lhs => rw [← List.take_append_drop idx q.pending,
        List.drop_eq_getElem_cons h, hgetElem]
    have herase : q.pending.eraseIdx idx =
        q.pending.take idx ++ q.pending.drop (idx + 1) :=
      List.eraseIdx_eq_take_drop_succ q.pending idx
    have hoffD : pk.data_offset = sizes_sum (q.pending.take idx) := by
      have := offsets_from_get q.pending 0 hoff idx h
      rw [hget] at this
      omega
    have hsum : sizes_sum q.pending =
        sizes_sum (q.pending.take idx) + pk.data_size +
          sizes_sum (q.pending.drop (idx + 1)) := by
      conv_lhs => rw [hsplit]
      rw [sizes_sum_append, sizes_sum_cons]
      omega
    rw [discard_at_eq q idx pk hg]
    refine ⟨?_, ?_, ?_⟩
    · show offsets_from 0 ((q.pending.eraseIdx idx).map
        (shift_off pk.data_offset pk.data_size))
      rw [herase]
      exact offsets_from_erase (q.pending.take idx) 0 pk
        (q.pending.drop (idx + 1)) (hsplit ▸ hoff)
    · show (q.data.take pk.data_offset ++
          q.data.drop (pk.data_offset + pk.data_size)).length =
        sizes_sum ((q.pending.eraseIdx idx).map
          (shift_off pk.data_offset pk.data_size))
      rw [herase, sizes_sum_map_shift, sizes_sum_append,
          List.length_append, List.length_take, List.length_drop]
      omega
    · show (q.data.take pk.data_offset ++
          q.data.drop (pk.data_offset + pk.data_size)).length ≤ BLOCK_SIZE
      rw [List.length_append, List.length_take, List.length_drop]
      omega


theorem enqueue_wf (q : Queue) (f : Frame) (p : List Nat) (q2 : Queue)
    (hwf : queue_wf q) (h : enqueue q f p = .ok q2) : queue_wf q2 := by
  obtain ⟨hoff, hlen, hblk⟩ := hwf
  rw [enqueue] at h
  by_cases hb : q.data.length + p.length > BLOCK_SIZE
  · rw [if_pos hb] at h
    exact absurd h (by simp)
  · rw [if_neg hb] at h
    simp only [Except.ok.injEq] at h
    subst h
    refine ⟨?_, ?_, ?_⟩
    · exact offsets_from_append_single q.pending 0
        { packet := f, next_send := RETRY_DELAY_MS, retry_count := 0,
          data_offset := q.data.length, data_size := p.length }
        hoff (by simpa using hlen)
    · show (q.data ++ p).length = sizes_sum (q.pending ++
        [{ packet := f, next_send := RETRY_DELAY_MS, retry_count := 0,
           data_offset := q.data.length, data_size := p.length }])
      rw [List.length_append, sizes_sum_append, sizes_sum_cons, sizes_sum_nil]
      have hsz : ({ packet := f, next_send := RETRY_DELAY_MS, retry_count := 0, data_offset := q.data.length, data_size := p.length } : PendingPacket).data_size = p.length := rfl
      rw [hsz]
      omega
    · show (q.data ++ p).length ≤ BLOCK_SIZE
      rw [List.length_append]
      omega

theorem ack_recv_wf (q : Queue) (prn : Nat) (hwf : queue_wf q) :
    queue_wf (ack_recv q prn).1 := by
  rw [ack_recv]
  split
  · exact discard_at_wf q _ hwf
  · exact hwf

/-- Loop step: entry fires with budget but the retry callback errors; the
tick aborts after the retry invocation. -/
theorem tick_loop_err (elapsed : Nat) (q : Queue) (idx : Nat)
    (rands : List Nat) (oks : List Bool) (events : List Event)
    (p p2 : PendingPacket) (q2 : Queue)
    (h : idx < q.pending.length)
    (hp : q.pending.get ⟨idx, h⟩ = p)
    (hfire : p.next_send ≤ elapsed)
    (hrc : p.retry_count < RETRY_COUNT)
    (hok : oks.headD true = false)
    (hp2 : p2 = { p with retry_count := p.retry_count + 1,
                         next_send := rands.headD RETRY_DELAY_MS })
    (hq2 : q2 = { q with pending := q.pending.set idx p2 }) :
    tick_loop elapsed q idx rands oks events =
      (q2, events ++ [Event.retry p2.packet (packet_data q2 p2)
        (rands.headD RETRY_DELAY_MS)], false) := by
  rw [tick_loop]
  rw [dif_pos h]
  simp only [hp]
  rw [if_pos hfire]
  rw [dif_pos hrc]
  have hok1 : ¬(oks.headD true = true) := by rw [hok]; decide
  rw [if_neg hok1]
  rw [← hp2, ← hq2]
  simp [hp2]

/-- Replacing an entry by one with the same offset and size keeps the
layout invariant. -/
theorem set_same_footprint_wf (q : Queue) (idx : Nat) (h : idx < q.pending.length)
    (p2 : PendingPacket)
    (hoff2 : p2.data_offset = (q.pending.get ⟨idx, h⟩).data_offset)
    (hsz2 : p2.data_size = (q.pending.get ⟨idx, h⟩).data_size)
    (hwf : queue_wf q) : queue_wf { q with pending := q.pending.set idx p2 } := by
  obtain ⟨hoff, hlen, hblk⟩ := hwf
  refine ⟨?_, ?_, hblk⟩
  · show offsets_from 0 (q.pending.set idx p2)
    exact offsets_from_set q.pending 0 idx p2 h hoff2 hsz2 hoff
  · show q.data.length = sizes_sum (q.pending.set idx p2)
    rw [sizes_sum_set q.pending idx p2 h hsz2]
    exact hlen

theorem tick_loop_wf (elapsed : Nat) (fuel : Nat) :
    ∀ (q : Queue) (idx : Nat) (rands : List Nat) (oks : List Bool)
      (events : List Event), q.pending.length - idx ≤ fuel → queue_wf q →
      queue_wf (tick_loop elapsed q idx rands oks events).1 := by
  induction fuel with
  | zero =>
      intro q idx rands oks events hf hwf
      rw [tick_loop_done elapsed q idx rands oks events (by omega)]
      exact hwf
  | succ fuel ih =>
      intro q idx rands oks events hf hwf
      by_cases h : idx < q.pending.length
      · by_cases hfire : (q.pending.get ⟨idx, h⟩).next_send ≤ elapsed
        · by_cases hrc : (q.pending.get ⟨idx, h⟩).retry_count < RETRY_COUNT
          · obtain ⟨p2, hp2⟩ : ∃ p2 : PendingPacket, p2 = { q.pending.get ⟨idx, h⟩ with retry_count := (q.pending.get ⟨idx, h⟩).retry_count + 1, next_send := rands.headD RETRY_DELAY_MS } := ⟨_, rfl⟩
            cases hok : oks.headD true with
            | false =>
                rw [tick_loop_err elapsed q idx rands oks events
                  (q.pending.get ⟨idx, h⟩) p2
                  { q with pending := q.pending.set idx p2 }
                  h rfl hfire hrc hok hp2 rfl]
                exact set_same_footprint_wf q idx h p2 (by rw [hp2]) (by rw [hp2]) hwf
            | true =>
                by_cases hcong : CONGEST_CONTROL < q.data.length
                · rw [tick_loop_retry_discard elapsed q idx rands oks events
                    (q.pending.get ⟨idx, h⟩) p2
                    { q with pending := q.pending.set idx p2 }
                    h rfl hfire hrc hcong hok hp2 rfl]
                  refine ih _ idx rands.tail oks.tail _ ?_ ?_
                  · rw [discard_at_length _ _ (by simpa using h)]
                    simp only [List.length_set]
                    omega
                  · exact discard_at_wf _ idx
                      (set_same_footprint_wf q idx h p2 (by rw [hp2]) (by rw [hp2]) hwf)
                · rw [tick_loop_retry_keep elapsed q idx rands oks events
                    (q.pending.get ⟨idx, h⟩) p2
                    { q with pending := q.pending.set idx p2 }
                    h rfl hfire hrc (Nat.le_of_not_lt hcong) hok hp2 rfl]
                  refine ih _ (idx + 1) rands.tail oks.tail _ ?_ ?_
                  · simp only [List.length_set]
                    omega
                  · exact set_same_footprint_wf q idx h p2 (by rw [hp2]) (by rw [hp2]) hwf
          · rw [tick_loop_expire elapsed q idx rands oks events
              (q.pending.get ⟨idx, h⟩) h rfl hfire (Nat.le_of_not_lt hrc)]
            refine ih _ idx rands oks _ ?_ (discard_at_wf q idx hwf)
            rw [discard_at_length q idx h]
            omega
        · rw [tick_loop_wait elapsed q idx rands oks events
            (q.pending.get ⟨idx, h⟩) h rfl hfire]
          refine ih _ (idx + 1) rands oks events ?_
            (set_same_footprint_wf q idx h _ rfl rfl hwf)
          simp only [List.length_set]
          omega
      · rw [tick_loop_done elapsed q idx rands oks events h]
        exact hwf

theorem tick_wf (q : Queue) (e : Nat) (rands : List Nat) (oks : List Bool)
    (hwf : queue_wf q) : queue_wf (tick q e rands oks).1 :=
  tick_loop_wf e q.pending.length q 0 rands oks [] (by omega) hwf

/-- A queue operation: `enqueue` (left unchanged when rejected),
`ack_recv`, or `tick` with its oracles. -/
inductive QOp where
  | enq (f : Frame) (payload : List Nat)
  | ack (prn : Nat)
  | tk (elapsed : Nat) (rands : List Nat) (oks : List Bool)

def apply_op (q : Queue) : QOp → Queue
  | .enq f payload =>
      match enqueue q f payload with
      | .ok q2 => q2
      | .error _ => q
  | .ack prn => (ack_recv q prn).1
  | .tk e rands oks => (tick q e rands oks).1

def run_ops (q : Queue) : List QOp → Queue
  | [] => q
  | op :: rest => run_ops (apply_op q op) rest

theorem apply_op_wf (q : Queue) (op : QOp) (hwf : queue_wf q) :
    queue_wf (apply_op q op) := by
  cases op with
  | enq f payload =>
      show queue_wf (match enqueue q f payload with
        | .ok q2 => q2
        | .error _ => q)
      rcases he : enqueue q f payload with e | q2
      · exact hwf
      · exact enqueue_wf q f payload q2 hwf he
  | ack prn => exact ack_recv_wf q prn hwf
  | tk e rands oks => exact tick_wf q e rands oks hwf

theorem run_ops_wf (ops : List QOp) : ∀ q, queue_wf q → queue_wf (run_ops q ops) := by
  induction ops with
  | nil => intro q h; exact h
  | cons op rest ih => intro q h; exact ih _ (apply_op_wf q op h)

/-- C10: after any sequence of `enqueue`, `ack_recv` and `tick` operations
on a fresh queue, the pending entries cover the shared payload vector
exactly (the sizes sum to its length, which stays within `BLOCK_SIZE`),
their ranges are pairwise disjoint and stored in increasing offset order,
and every range lies inside the vector. -/
theorem C10_queue_layout (ops : List QOp) (q : Queue)
    (hq : q = run_ops queue_new ops) :
    sizes_sum q.pending = q.data.length ∧
    q.data.length ≤ BLOCK_SIZE ∧
    q.pending.Pairwise (fun x y => x.data_offset + x.data_size ≤ y.data_offset) ∧
    (∀ x ∈ q.pending, x.data_offset + x.data_size ≤ q.data.length) := by
  subst hq
  have hwf := run_ops_wf ops queue_new ⟨trivial, rfl, by norm_num [queue_new, BLOCK_SIZE]⟩
  obtain ⟨hoff, hlen, hblk⟩ := hwf
  refine ⟨hlen.symm, hblk, offsets_from_pairwise _ 0 hoff, ?_⟩
  intro x hx
  have := offsets_from_le_sum _ 0 hoff x hx
  omega


/-- C10 witness: two enqueues, a tick retrying both entries, an ack
discarding the middle range, and a third enqueue. -/
theorem C10_queue_layout_witness :
    sizes_sum [{ packet := ⟨1, []⟩, next_send := 600, retry_count := 1, data_offset := 0, data_size := 2 }, { packet := ⟨3, []⟩, next_send := 500, retry_count := 0, data_offset := 2, data_size := 3 }] = ([10, 11, 13, 14, 15] : List Nat).length ∧
    ([10, 11, 13, 14, 15] : List Nat).length ≤ BLOCK_SIZE ∧
    List.Pairwise (fun x y => x.data_offset + x.data_size ≤ y.data_offset)
      ([{ packet := ⟨1, []⟩, next_send := 600, retry_count := 1, data_offset := 0, data_size := 2 }, { packet := ⟨3, []⟩, next_send := 500, retry_count := 0, data_offset := 2, data_size := 3 }] : List PendingPacket) ∧
    (∀ x ∈ ([{ packet := ⟨1, []⟩, next_send := 600, retry_count := 1, data_offset := 0, data_size := 2 }, { packet := ⟨3, []⟩, next_send := 500, retry_count := 0, data_offset := 2, data_size := 3 }] : List PendingPacket),
      x.data_offset + x.data_size ≤ ([10, 11, 13, 14, 15] : List Nat).length) :=
  C10_queue_layout
    [QOp.enq ⟨1, []⟩ [10, 11], QOp.enq ⟨2, []⟩ [12], QOp.tk 500 [600] [],
     QOp.ack 2, QOp.enq ⟨3, []⟩ [13, 14, 15]]
    (Queue.mk [{ packet := ⟨1, []⟩, next_send := 600, retry_count := 1, data_offset := 0, data_size := 2 }, { packet := ⟨3, []⟩, next_send := 500, retry_count := 0, data_offset := 2, data_size := 3 }] [10, 11, 13, 14, 15])
    (by simp [run_ops, apply_op, enqueue, ack_recv, tick, tick_loop, discard_at,
              packet_data, queue_new, RETRY_COUNT, RETRY_DELAY_MS,
              CONGEST_CONTROL, BLOCK_SIZE, List.findIdx?])

end SimpleLink
